import Mathlib

/-!
Verification development for the fino-filing repository.

The Python source is shallowly embedded: byte strings become `List Nat`
(each entry below 256), Python `dict`s become association lists, datetimes
are represented by their canonical ISO text (Python's
`datetime.isoformat` / `datetime.fromisoformat` are mutually inverse on
canonical text, so a datetime value is identified with that text), and
fallible code returns `Except`.
-/

set_option maxRecDepth 16384

namespace FinoFiling

/-- Decidable equality of `Except` results, for evaluating the embedded
fallible operations on concrete inputs. -/
instance exceptDecEq {ε α : Type} [DecidableEq ε] [DecidableEq α] :
    DecidableEq (Except ε α) := fun x y =>
  match x, y with
  | .ok a, .ok b =>
    if h : a = b then .isTrue (by rw [h])
    else .isFalse (by intro hc; cases hc; exact h rfl)
  | .error a, .error b =>
    if h : a = b then .isTrue (by rw [h])
    else .isFalse (by intro hc; cases hc; exact h rfl)
  | .ok _, .error _ => .isFalse (by intro hc; cases hc)
  | .error _, .ok _ => .isFalse (by intro hc; cases hc)

/-- Byte strings (Python `bytes`) are lists of naturals below 256. -/
abbrev Bytes := List Nat

/-- UTF-8 encoding of a single Unicode code point. -/
def utf8Char (n : Nat) : List Nat :=
  if n < 128 then [n]
  else if n < 2048 then [192 + n / 64, 128 + n % 64]
  else if n < 65536 then [224 + n / 4096, 128 + n / 64 % 64, 128 + n % 64]
  else [240 + n / 262144, 128 + n / 4096 % 64, 128 + n / 64 % 64, 128 + n % 64]

/-- UTF-8 encoding of a string (Python `str.encode()`). -/
def encodeUtf8 (s : String) : Bytes :=
  s.data.foldr (fun c acc => utf8Char c.toNat ++ acc) []

/-! SHA-256 (FIPS 180-4), the model of Python's `hashlib.sha256`. -/

/-- Reduction of a natural number to a 32-bit word. -/
def w32 (n : Nat) : Nat := n % 4294967296

/-- Right rotation of a 32-bit word by `n` bits. -/
def rotWord (x n : Nat) : Nat := w32 ((x >>> n) ||| (x <<< (32 - n)))

def smallSigma0 (x : Nat) : Nat := (rotWord x 7) ^^^ (rotWord x 18) ^^^ (x >>> 3)

def smallSigma1 (x : Nat) : Nat := (rotWord x 17) ^^^ (rotWord x 19) ^^^ (x >>> 10)

def bigSigma0 (x : Nat) : Nat := (rotWord x 2) ^^^ (rotWord x 13) ^^^ (rotWord x 22)

def bigSigma1 (x : Nat) : Nat := (rotWord x 6) ^^^ (rotWord x 11) ^^^ (rotWord x 25)

/-- The 64 SHA-256 round constants of FIPS 180-4 (decimal). -/
def sha256K : List Nat :=
  [1116352408, 1899447441, 3049323471, 3921009573, 961987163,
   1508970993, 2453635748, 2870763221, 3624381080, 310598401,
   607225278, 1426881987, 1925078388, 2162078206, 2614888103,
   3248222580, 3835390401, 4022224774, 264347078, 604807628,
   770255983, 1249150122, 1555081692, 1996064986, 2554220882,
   2821834349, 2952996808, 3210313671, 3336571891, 3584528711,
   113926993, 338241895, 666307205, 773529912, 1294757372,
   1396182291, 1695183700, 1986661051, 2177026350, 2456956037,
   2730485921, 2820302411, 3259730800, 3345764771, 3516065817,
   3600352804, 4094571909, 275423344, 430227734, 506948616,
   659060556, 883997877, 958139571, 1322822218, 1537002063,
   1747873779, 1955562222, 2024104815, 2227730452, 2361852424,
   2428436474, 2756734187, 3204031479, 3329325298]

/-- The SHA-256 initial hash value of FIPS 180-4 (decimal). -/
def sha256H0 : List Nat :=
  [1779033703, 3144134277, 1013904242, 2773480762,
   1359893119, 2600822924, 528734635, 1541459225]

/-- Big-endian rendering of a value on `k` bytes. -/
def beBytes : Nat → Nat → Bytes
  | 0, _ => []
  | k + 1, v => beBytes k (v / 256) ++ [v % 256]

/-- SHA-256 message padding: a 0x80 byte, zeros, and the 64-bit bit length. -/
def sha256Pad (msg : Bytes) : Bytes :=
  let len := msg.length
  let zeros := (120 - ((len + 1) % 64)) % 64
  msg ++ [128] ++ List.replicate zeros 0 ++ beBytes 8 (len * 8)

/-- Big-endian 32-bit words from a byte string. -/
def toWords : Bytes → List Nat
  | a :: b :: c :: d :: rest => (((a * 256 + b) * 256 + c) * 256 + d) :: toWords rest
  | _ => []

/-- Message-schedule extension of the 16 chunk words to 64 words. -/
def schedule (w16 : List Nat) : List Nat :=
  (List.range 48).foldl
    (fun w _ =>
      let n := w.length
      let w15 := w.getD (n - 15) 0
      let w2 := w.getD (n - 2) 0
      let w16v := w.getD (n - 16) 0
      let w7 := w.getD (n - 7) 0
      w ++ [w32 (w16v + smallSigma0 w15 + w7 + smallSigma1 w2)])
    w16

/-- One SHA-256 compression step over a 64-byte chunk. -/
def compress (h : List Nat) (chunk : Bytes) : List Nat :=
  let ws := schedule (toWords chunk)
  let fin := (sha256K.zip ws).foldl
    (fun st p =>
      match st with
      | [a, b, c, d, e, f, g, hh] =>
        let ch := (e &&& f) ^^^ ((e ^^^ 4294967295) &&& g)
        let t1 := w32 (hh + bigSigma1 e + ch + p.1 + p.2)
        let maj := (a &&& b) ^^^ (a &&& c) ^^^ (b &&& c)
        let t2 := w32 (bigSigma0 a + maj)
        [w32 (t1 + t2), a, b, c, w32 (d + t1), e, f, g]
      | other => other)
    h
  (h.zip fin).map (fun p => w32 (p.1 + p.2))

/-- Fuelled split into 64-byte chunks (structural, so the kernel reduces it). -/
def chunksGo : Nat → Bytes → List Bytes
  | 0, _ => []
  | _, [] => []
  | fuel + 1, l => l.take 64 :: chunksGo fuel (l.drop 64)

def chunks64 (l : Bytes) : List Bytes := chunksGo (l.length + 1) l

/-- Lower-case hexadecimal digit. -/
def hexDigit (n : Nat) : Char := if n < 10 then Char.ofNat (48 + n) else Char.ofNat (87 + n)

def hexByte (n : Nat) : List Char := [hexDigit (n / 16 % 16), hexDigit (n % 16)]

def hexWord (n : Nat) : List Char :=
  hexByte (n / 16777216 % 256) ++ hexByte (n / 65536 % 256) ++
  hexByte (n / 256 % 256) ++ hexByte (n % 256)

/-- Hexadecimal SHA-256 digest of a byte string: the model of
Python's `hashlib.sha256(content).hexdigest()`. -/
def sha256hex (msg : Bytes) : String :=
  let hs := (chunks64 (sha256Pad msg)).foldl compress sha256H0
  ⟨hs.foldr (fun w acc => hexWord w ++ acc) []⟩

/-- FIPS 180-4 test vector: the embedded SHA-256 digests `abc` correctly. -/
theorem sha256hex_abc_vector : sha256hex (encodeUtf8 "abc") =
    "ba7816bf8f01cfea414140de5dae2223b00361a396177a9cb410ff61f20015ad" := by
  decide

/-! The filing data model (src/fino_filing/filing). -/

/-- Tag for a field's declared Python value type (`Field._field_type`). -/
inductive FType
  | tStr
  | tBool
  | tInt
  | tDatetime
deriving DecidableEq, Repr

/-- A Python field value. Datetimes are represented by their canonical ISO
text (`datetime.isoformat` and `datetime.fromisoformat` are mutually inverse
on canonical text, so the text determines the datetime). -/
inductive Value
  | vNone
  | vStr (s : String)
  | vBool (b : Bool)
  | vInt (n : Int)
  | vDatetime (iso : String)
deriving DecidableEq, Repr

/-- Python `str(value)` for the values above (datetimes only ever reach the
embedded code through `isoformat`, so their text is used directly). -/
def pyStr : Value → String
  | .vNone => "None"
  | .vStr s => s
  | .vBool b => if b then "True" else "False"
  | .vInt n => toString n
  | .vDatetime iso => iso

/-- filing/filing.py `_serialize_field_value`: None becomes the empty string,
datetimes their ISO text, every other value its `str()`. -/
def serialize_field_value : Value → String
  | .vNone => ""
  | .vDatetime iso => iso
  | v => pyStr v

/-- Python truthiness of a value. -/
def truthy : Value → Bool
  | .vNone => false
  | .vStr s => !s.isEmpty
  | .vBool b => b
  | .vInt n => n != 0
  | .vDatetime _ => true

/-- Python dicts of field values are association lists with unique keys. -/
abbrev Dict := List (String × Value)

/-- Dictionary lookup (`dict.get`, absent key gives `none`). -/
def dget (d : Dict) (k : String) : Option Value :=
  (d.find? (fun p => p.1 == k)).map (·.2)

/-- Dictionary update: replace the first binding of the key in place, or
append a new binding (Python `d[k] = v` preserving insertion order). -/
def dset : Dict → String → Value → Dict
  | [], k, v => [(k, v)]
  | (k', v') :: rest, k, v =>
      if k' == k then (k, v) :: rest else (k', v') :: dset rest k v

/-- Field metadata, from filing/field.py `Field.__init__` together with the
`required` flag. Modelled from the spec: the `required` constructor argument
is missing from the `field.py` under src (a stale copy — filing/filing.py
passes `required=True` to every core `Field(...)` and reads it back via
`getattr(field, "required", False)`, and the field tests assert it); the
spec lists `required: bool` as part of Field metadata, forbidding a
null/absent value at construction. -/
structure FieldMeta where
  name : String
  ftype : Option FType
  indexed : Bool
  immutable : Bool
  required : Bool
  description : Option String
deriving DecidableEq, Repr

/-- A concrete Filing type: its fully-qualified name, its collected field
metadata (`cls._fields`, insertion ordered) and defaults (`cls._defaults`),
as assembled by the `FilingMeta` metaclass. -/
structure FilingClass where
  className : String
  fields : List (String × FieldMeta)
  defaults : Dict
deriving DecidableEq, Repr

/-- filing/filing.py `Filing._core_fields`. -/
def core_fields : List String :=
  ["id", "source", "checksum", "name", "is_zip", "format", "created_at"]

/-- The seven core field declarations of the base `Filing` class
(filing/filing.py lines 74-116). -/
def coreFieldMetas : List (String × FieldMeta) :=
  [("id", ⟨"id", some .tStr, true, true, true, some "Filing ID"⟩),
   ("source", ⟨"source", some .tStr, true, true, true, some "Data source"⟩),
   ("checksum", ⟨"checksum", some .tStr, true, false, true, some "SHA256 checksum"⟩),
   ("name", ⟨"name", some .tStr, true, true, true, some "File name"⟩),
   ("is_zip", ⟨"is_zip", some .tBool, true, false, true, some "ZIP flag"⟩),
   ("format", ⟨"format", some .tStr, true, true, true, some "File format"⟩),
   ("created_at", ⟨"created_at", some .tDatetime, true, true, true, some "Created timestamp"⟩)]

/-- The base `Filing` class as registered by the metaclass. -/
def FilingCls : FilingClass :=
  ⟨"fino_filing.filing.filing.Filing", coreFieldMetas, []⟩

/-- A record instance: its concrete class and its flat `_data` store. -/
structure Inst where
  cls : FilingClass
  data : Dict
deriving DecidableEq, Repr

/-- Metadata of a declared field of the class (`cls._fields[name]`). -/
def fieldOf (cls : FilingClass) (name : String) : Option FieldMeta :=
  ((cls.fields).find? (fun p => p.1 == name)).map (·.2)

/-- Attribute read through the `Field.__get__` descriptor: instance `_data`
first, then the class default, else `None`. -/
def attr (r : Inst) (name : String) : Value :=
  match dget r.data name with
  | some v => v
  | none =>
    match dget r.cls.defaults name with
    | some v => v
    | none => .vNone

/-- Payload of filing/error.py `FieldImmutableError`: the field, its current
value and the attempted value. -/
structure ImmutableErr where
  field : String
  current : Value
  attempt : Value
deriving DecidableEq, Repr

/-- filing/filing.py `Filing.__setattr__`: an assignment to a declared
immutable field that already holds a non-None value different from the new
value raises `FieldImmutableError`; every other assignment to a declared
field stores the value in `_data` through `Field.__set__`. An assignment to
an undeclared name becomes a plain instance attribute outside `_data`, so it
leaves the record's field store unchanged. -/
def setAttr (r : Inst) (name : String) (v : Value) : Except ImmutableErr Inst :=
  match fieldOf r.cls name with
  | none => .ok r
  | some field =>
    match dget r.data name with
    | some cur =>
      if field.immutable && cur != .vNone && cur != v then
        .error ⟨name, cur, v⟩
      else
        .ok ⟨r.cls, dset r.data name v⟩
    | none => .ok ⟨r.cls, dset r.data name v⟩

/-- Sequential `setattr` of a list of key/value pairs (the loops over
`_defaults` and `kwargs` in `Filing.__init__`). -/
def applySets : Inst → Dict → Except ImmutableErr Inst
  | r, [] => .ok r
  | r, (k, v) :: rest =>
    match setAttr r k v with
    | .ok r' => applySets r' rest
    | .error e => .error e

/-- An error raised by `Filing.__init__` (filing/error.py):
`FilingRequiredError` and `FilingValidationError` carry the offending field
names; a `FieldImmutableError` can escape from the `setattr` loops. -/
inductive ConstructErr
  | requiredErr (fields : List String)
  | validationErr (fields : List String)
  | immutableErr (e : ImmutableErr)
deriving DecidableEq, Repr

/-- Runtime type check of a value against a declared type, the model of
`Field.validate_value` (called by `Filing.__validate_fields`; the method
body is missing from the stale `field.py` under src). Modelled from the
spec: *type-mismatch* is "value's runtime type does not match declared
type". -/
def typeMatches : FType → Value → Bool
  | .tStr, .vStr _ => true
  | .tBool, .vBool _ => true
  | .tInt, .vInt _ => true
  | .tDatetime, .vDatetime _ => true
  | _, _ => false

/-- One iteration of the field loop of `Filing.__validate_fields`: append
the field to the required-error or the type-error list as the code does. -/
def vstep (data : Dict) (acc : List String × List String)
    (p : String × FieldMeta) : List String × List String :=
  if p.2.required && ((dget data p.1).getD .vNone) == .vNone then
    (acc.1 ++ [p.1], acc.2)
  else if core_fields.contains p.1 && ((dget data p.1).getD .vNone) == .vStr "" then
    (acc.1, acc.2 ++ [p.1])
  else
    match p.2.ftype with
    | none => acc
    | some t =>
      if !p.2.required && ((dget data p.1).getD .vNone) == .vNone then acc
      else if typeMatches t ((dget data p.1).getD .vNone) then acc
      else (acc.1, acc.2 ++ [p.1])

/-- filing/filing.py `Filing.__validate_fields`: collect missing required
fields, empty core string fields, and type mismatches; raise the batched
required error first, else the batched validation error. -/
def validate_fields (cls : FilingClass) (data : Dict) : Except ConstructErr Unit :=
  if !(cls.fields.foldl (vstep data) ([], [])).1.isEmpty then
    .error (.requiredErr (cls.fields.foldl (vstep data) ([], [])).1)
  else if !(cls.fields.foldl (vstep data) ([], [])).2.isEmpty then
    .error (.validationErr (cls.fields.foldl (vstep data) ([], [])).2)
  else .ok ()

/-- Does one field pass `Filing.__validate_fields` without contributing an
error? -/
def fieldOk (data : Dict) (p : String × FieldMeta) : Bool :=
  if p.2.required && ((dget data p.1).getD .vNone) == .vNone then false
  else if core_fields.contains p.1 && ((dget data p.1).getD .vNone) == .vStr "" then
    false
  else
    match p.2.ftype with
    | none => true
    | some t =>
      if !p.2.required && ((dget data p.1).getD .vNone) == .vNone then true
      else typeMatches t ((dget data p.1).getD .vNone)

/-- Lexicographic code-point comparison of character lists (how Python
compares strings). -/
def lexLe : List Char → List Char → Bool
  | [], _ => true
  | _ :: _, [] => false
  | a :: as, b :: bs =>
    if a.toNat < b.toNat then true
    else if b.toNat < a.toNat then false
    else lexLe as bs

/-- Python `a <= b` on strings. -/
def strLe (a b : String) : Bool := lexLe a.data b.data

/-- The string order as a proposition, for the sorting machinery. -/
def StrLe (a b : String) : Prop := strLe a b = true

instance : DecidableRel StrLe := fun a b => by unfold StrLe; infer_instance

theorem lexLe_cons_iff (x y : Char) (xs ys : List Char) :
    lexLe (x :: xs) (y :: ys) = true ↔
      x.toNat < y.toNat ∨ (x.toNat = y.toNat ∧ lexLe xs ys = true) := by
  simp only [lexLe]
  by_cases h1 : x.toNat < y.toNat
  · simp [h1]
  · by_cases h2 : y.toNat < x.toNat
    · rw [if_neg h1, if_pos h2]
      simp only [Bool.false_eq_true, false_iff]
      intro h
      rcases h with h | ⟨h, _⟩ <;> omega
    · have hxy : x.toNat = y.toNat := by omega
      simp [h1, h2, hxy]

theorem lexLe_total (a b : List Char) : lexLe a b = true ∨ lexLe b a = true := by
  induction a generalizing b with
  | nil => left; rfl
  | cons x xs ih =>
    cases b with
    | nil => right; rfl
    | cons y ys =>
      rw [lexLe_cons_iff, lexLe_cons_iff]
      rcases Nat.lt_trichotomy x.toNat y.toNat with h | h | h
      · exact Or.inl (Or.inl h)
      · rcases ih ys with hr | hr
        · exact Or.inl (Or.inr ⟨h, hr⟩)
        · exact Or.inr (Or.inr ⟨h.symm, hr⟩)
      · exact Or.inr (Or.inl h)

theorem lexLe_trans (a b c : List Char) (hab : lexLe a b = true)
    (hbc : lexLe b c = true) : lexLe a c = true := by
  induction a generalizing b c with
  | nil => rfl
  | cons x xs ih =>
    cases b with
    | nil => simp [lexLe] at hab
    | cons y ys =>
      cases c with
      | nil => simp [lexLe] at hbc
      | cons z zs =>
        rw [lexLe_cons_iff] at hab hbc ⊢
        rcases hab with h | ⟨h, hr⟩
        · rcases hbc with h' | ⟨h', hr'⟩
          · exact Or.inl (by omega)
          · exact Or.inl (by omega)
        · rcases hbc with h' | ⟨h', hr'⟩
          · exact Or.inl (by omega)
          · exact Or.inr ⟨by omega, ih ys zs hr hr'⟩

instance : IsTotal String StrLe :=
  ⟨fun a b => lexLe_total a.data b.data⟩

instance : IsTrans String StrLe :=
  ⟨fun a b c => lexLe_trans a.data b.data c.data⟩

/-- Python `sorted` on strings: a stable sort under the lexicographic
code-point order (modelled by insertion sort). -/
def sortStrs (l : List String) : List String := List.insertionSort StrLe l

theorem sortStrs_sorted (l : List String) : List.Sorted StrLe (sortStrs l) :=
  List.sorted_insertionSort StrLe l

theorem sortStrs_perm (l : List String) : List.Perm (sortStrs l) l :=
  List.perm_insertionSort StrLe l

/-- Duplicate removal keeping first occurrences (set construction). -/
def dedupStrs : List String → List String
  | [] => []
  | x :: xs => x :: (dedupStrs xs).filter (fun y => y != x)

/-- filing/filing.py `Filing.get_identity_fields`: the sorted union of the
core identity names with every declared field outside `_core_fields`. -/
def get_identity_fields (cls : FilingClass) : List String :=
  let coreId := ["format", "is_zip", "name", "source"]
  let extra := (cls.fields.map (·.1)).filter (fun k => !(core_fields.contains k))
  sortStrs (dedupStrs (coreId ++ extra))

/-- filing/filing.py `_generate_filing_id`: first 32 hex characters of the
SHA-256 digest of the sorted identity fields serialized `name=value` and
joined by the bar separator. -/
def generate_filing_id (cls : FilingClass) (data : Dict) : String :=
  (sha256hex (encodeUtf8 (String.intercalate "|"
    ((get_identity_fields cls).map
      (fun n => n ++ "=" ++ serialize_field_value ((dget data n).getD .vNone)))))).take 32

/-- filing/filing.py `Filing.__init__`: apply class defaults, then the
keyword arguments, fill `created_at` (from the clock argument `now`) and
`id` when absent, then validate. -/
def mkFiling (cls : FilingClass) (kwargs : Dict) (now : String) :
    Except ConstructErr Inst :=
  match applySets ⟨cls, []⟩ cls.defaults with
  | .error e => .error (.immutableErr e)
  | .ok r1 =>
  match applySets r1 kwargs with
  | .error e => .error (.immutableErr e)
  | .ok r2 =>
  match
    (if (dget r2.data "created_at").getD .vNone == .vNone then
      setAttr r2 "created_at" (.vDatetime now)
    else .ok r2) with
  | .error e => .error (.immutableErr e)
  | .ok r3 =>
  match
    (if (dget r3.data "id").getD .vNone == .vNone then
      setAttr r3 "id" (.vStr (generate_filing_id cls r3.data))
    else .ok r3) with
  | .error e => .error (.immutableErr e)
  | .ok r4 =>
  match validate_fields cls r4.data with
  | .error e => .error e
  | .ok _ => .ok r4

/-- filing/filing.py `Filing.to_dict`: the flat `_data` map with datetimes
rendered to their ISO text. -/
def to_dict (data : Dict) : Dict :=
  data.map (fun p =>
    match p.2 with
    | .vDatetime iso => (p.1, .vStr iso)
    | v => (p.1, v))

/-- One step of the datetime-restoration loop of `Filing.from_dict`: when
the field's declared type is datetime and the dict holds a string there,
convert it back (`datetime.fromisoformat`). -/
def dtstep (acc : Dict) (p : String × FieldMeta) : Dict :=
  if p.2.ftype == some .tDatetime then
    match dget acc p.1 with
    | some (.vStr s) => dset acc p.1 (.vDatetime s)
    | _ => acc
  else acc

/-- filing/filing.py `Filing.from_dict`: convert the text of every field
whose declared type is datetime back, then construct through
`cls(**data_copy)`. -/
def from_dict (cls : FilingClass) (d : Dict) (now : String) :
    Except ConstructErr Inst :=
  mkFiling cls (cls.fields.foldl dtstep d) now

/-- Python dict equality is order-insensitive: each binding of one map is a
binding of the other. -/
def dictSub (d1 d2 : Dict) : Bool :=
  d1.all (fun p => dget d2 p.1 == some p.2)

/-- Python `d1 == d2` on dicts with unique keys. -/
def dictEqv (d1 d2 : Dict) : Bool := dictSub d1 d2 && dictSub d2 d1

/-- filing/filing.py `Filing.__eq__`: same concrete type and equal `_data`. -/
def filingEq (r1 r2 : Inst) : Bool :=
  if r1.cls = r2.cls then dictEqv r1.data r2.data else false

/-! Concrete inputs used by the witnesses and counterexamples. -/

/-- A fixed construction clock (ISO text of `datetime.now()`). -/
def now0 : String := "2024-01-15T00:00:00"

/-- Keyword arguments of a representative base filing. -/
def baseKwargs : Dict :=
  [("source", .vStr "edinet"), ("name", .vStr "f.xbrl"), ("checksum", .vStr "c1"),
   ("format", .vStr "xbrl"), ("is_zip", .vBool false)]

/-- The `_data` of a successfully constructed record (empty on error). -/
def okData : Except ConstructErr Inst → Dict
  | .ok r => r.data
  | .error _ => []

/-- A user subtype adding one non-indexed optional string field `extra`,
with `_fields` and `_defaults` as the metaclass assembles them. -/
def ExtCls : FilingClass :=
  ⟨"test.ExtFiling",
   coreFieldMetas ++ [("extra", ⟨"extra", some .tStr, false, false, false, none⟩)],
   []⟩

/-! Claim C1: identity of the generated filing id. -/

/-- C1 (amended): for records of the same type, the generated id is a pure
function of the identity-field values — identical identity-field values give
an identical id — and the id is the first 32 hex characters of the SHA-256
digest of the lexicographically sorted identity fields serialized as
`name=value` (null as empty) joined by the bar separator. Instances that
differ in an identity field need not receive different ids: two values whose
serializations coincide (null and the empty string) produce the same id. -/
theorem C1_id_determinism_and_shape (cls : FilingClass) (d1 d2 : Dict)
    (h : ∀ n ∈ get_identity_fields cls, dget d1 n = dget d2 n) :
    generate_filing_id cls d1 = generate_filing_id cls d2 ∧
    List.Sorted StrLe (get_identity_fields cls) ∧
    generate_filing_id cls d1 =
      (sha256hex (encodeUtf8 (String.intercalate "|"
        ((get_identity_fields cls).map (fun n =>
          n ++ "=" ++ serialize_field_value ((dget d1 n).getD .vNone)))))).take 32 := by
  refine ⟨?_, ?_, rfl⟩
  · have hm : (get_identity_fields cls).map
        (fun n => n ++ "=" ++ serialize_field_value ((dget d1 n).getD .vNone)) =
        (get_identity_fields cls).map
          (fun n => n ++ "=" ++ serialize_field_value ((dget d2 n).getD .vNone)) :=
      List.map_congr_left (fun n hn => by rw [h n hn])
    unfold generate_filing_id
    rw [hm]
  · simp only [get_identity_fields]
    exact sortStrs_sorted _

/-- Data of two base filings with equal identity fields, different checksum. -/
def detD1 : Dict :=
  [("source", .vStr "s"), ("name", .vStr "n"), ("is_zip", .vBool true),
   ("format", .vStr "zip"), ("checksum", .vStr "aaa")]

/-- Same identity fields as `detD1`, another checksum. -/
def detD2 : Dict :=
  [("source", .vStr "s"), ("name", .vStr "n"), ("is_zip", .vBool true),
   ("format", .vStr "zip"), ("checksum", .vStr "bbb")]

/-- Witness for C1 at a concrete input: identical identity fields (only the
non-identity checksum differs) give an identical generated id. -/
theorem C1_id_determinism_and_shape_witness :
    generate_filing_id FilingCls detD1 = generate_filing_id FilingCls detD2 :=
  (C1_id_determinism_and_shape FilingCls detD1 detD2 (by decide)).1

/-- Kwargs of the counterexample pair: `extra` holds the empty string. -/
def ck1 : Dict := baseKwargs ++ [("extra", .vStr "")]

/-- Kwargs of the counterexample pair: `extra` holds `None`. -/
def ck2 : Dict := baseKwargs ++ [("extra", .vNone)]

/-- C1 counterexample: two valid instances of the same concrete type that
differ in the identity field `extra` (empty string against null) receive the
SAME generated id, because `_serialize_field_value` renders both as the
empty string; so a difference in an identity field does not always change
the id. -/
theorem C1_counterexample :
    ("extra" ∈ get_identity_fields ExtCls) ∧
    (mkFiling ExtCls ck1 now0).toOption.isSome = true ∧
    (mkFiling ExtCls ck2 now0).toOption.isSome = true ∧
    dget (okData (mkFiling ExtCls ck1 now0)) "extra" = some (.vStr "") ∧
    dget (okData (mkFiling ExtCls ck2 now0)) "extra" = some .vNone ∧
    dget (okData (mkFiling ExtCls ck1 now0)) "id" =
      dget (okData (mkFiling ExtCls ck2 now0)) "id" := by
  decide

/-! Claim C4: immutable and mutable field assignment. -/

/-- C4: on any record, assigning a declared immutable field its current
non-null value succeeds; assigning it a different value when it holds a
non-null value fails with an immutable-violation error naming the field, the
current value and the attempted value; assigning a declared mutable field
always succeeds and stores the value. -/
theorem C4_immutable_set (r : Inst) (name : String) (field : FieldMeta)
    (hf : fieldOf r.cls name = some field) :
    (∀ cur, dget r.data name = some cur → cur ≠ .vNone →
      setAttr r name cur = .ok ⟨r.cls, dset r.data name cur⟩) ∧
    (∀ cur v, field.immutable = true → dget r.data name = some cur →
      cur ≠ .vNone → cur ≠ v → setAttr r name v = .error ⟨name, cur, v⟩) ∧
    (field.immutable = false → ∀ v, ∃ r', setAttr r name v = .ok r' ∧
      r'.data = dset r.data name v) := by
  refine ⟨?_, ?_, ?_⟩
  · intro cur hcur _
    simp [setAttr, hf, hcur]
  · intro cur v himm hcur hne hnev
    simp [setAttr, hf, hcur, himm, bne_iff_ne, hne, hnev]
  · intro himm v
    cases hcur : dget r.data name with
    | none => exact ⟨⟨r.cls, dset r.data name v⟩, by simp [setAttr, hf, hcur], rfl⟩
    | some cur =>
      exact ⟨⟨r.cls, dset r.data name v⟩, by simp [setAttr, hf, hcur, himm], rfl⟩

/-- A base filing holding a source and a checksum. -/
def wInst : Inst := ⟨FilingCls, [("source", .vStr "s"), ("checksum", .vStr "c")]⟩

/-- Witness for C4 at a concrete record: re-assigning the immutable `source`
its current value succeeds, assigning it a different value fails with the
immutable-violation payload, and assigning the mutable `checksum` succeeds. -/
theorem C4_immutable_set_witness :
    setAttr wInst "source" (.vStr "s") =
      .ok ⟨wInst.cls, dset wInst.data "source" (.vStr "s")⟩ ∧
    setAttr wInst "source" (.vStr "t") =
      .error ⟨"source", .vStr "s", .vStr "t"⟩ ∧
    (∃ r', setAttr wInst "checksum" (.vStr "d") = .ok r' ∧
      r'.data = dset wInst.data "checksum" (.vStr "d")) := by
  have h := C4_immutable_set wInst "source"
    ⟨"source", some .tStr, true, true, true, some "Data source"⟩ (by decide)
  have h2 := C4_immutable_set wInst "checksum"
    ⟨"checksum", some .tStr, true, false, true, some "SHA256 checksum"⟩ (by decide)
  exact ⟨h.1 (.vStr "s") (by decide) (by decide),
         h.2.1 (.vStr "s") (.vStr "t") rfl (by decide) (by decide) (by decide),
         h2.2.2 rfl (.vStr "d")⟩

/-! Claim C6: schema registration and the required-with-null-default rule. -/

/-- filing/meta.py `FilingMeta.__new__` over one base class: inherit
`_fields` and `_defaults`, walk the `Annotated` hints of the class body
(attribute name, `Field` metadata, and the declared class-attribute default
when one exists), record new defaults, add fields not already declared, and
reject only a subclass default that conflicts with a parent immutable
field's non-None default (`FilingImmutableError`, carrying the offending
field names). The metaclass checks no other structural rule. -/
def filingMetaNew (base : FilingClass) (name : String)
    (hints : List (String × FieldMeta × Option Value)) :
    Except (List String) FilingClass :=
  let fd := hints.foldl
    (fun (acc : List (String × FieldMeta) × Dict) h =>
      let attrName := h.1
      let defaults' := match h.2.2 with
        | some v => dset acc.2 attrName v
        | none => acc.2
      let fields' :=
        if (acc.1.find? (fun p => p.1 == attrName)).isSome then acc.1
        else acc.1 ++ [(attrName, h.2.1)]
      (fields', defaults'))
    (base.fields, base.defaults)
  let immErrs := base.defaults.foldl
    (fun (acc : List String) p =>
      match fieldOf base p.1 with
      | some f =>
        if f.immutable then
          match dget fd.2 p.1 with
          | some cur => if cur != .vNone && cur != p.2 then acc ++ [p.1] else acc
          | none => acc
        else acc
      | none => acc)
    []
  if !immErrs.isEmpty then .error immErrs
  else .ok ⟨name, fd.1, fd.2⟩

/-- The class body of `BadCustomFiling` (test_init_extend.py line 789): the
seven inherited core hints plus a required string field `doc_number` whose
declared default is `None`. -/
def badDocHints : List (String × FieldMeta × Option Value) :=
  (coreFieldMetas.map (fun p => (p.1, p.2, (none : Option Value)))) ++
  [("doc_number", ⟨"doc_number", some .tStr, false, false, true, some "Doc number"⟩,
    some .vNone)]

/-- The class the metaclass actually builds for that body. -/
def BadCustomCls : FilingClass :=
  ⟨"test.BadCustomFiling",
   coreFieldMetas ++
     [("doc_number", ⟨"doc_number", some .tStr, false, false, true, some "Doc number"⟩)],
   [("doc_number", .vNone)]⟩

/-- C6 fails on the code: registering a type with a required field whose
declared default is null SUCCEEDS (the metaclass performs no
required-with-null-default check), and the failure only surfaces at the
first instantiation, as a missing-required construction error. -/
theorem C6_registration_does_not_reject :
    filingMetaNew FilingCls "test.BadCustomFiling" badDocHints = .ok BadCustomCls ∧
    mkFiling BadCustomCls baseKwargs now0 = .error (.requiredErr ["doc_number"]) := by
  decide

/-! The Locator (collection/locator.py). -/

/-- Python whitespace test of `str.strip` (ASCII range; the repository's
format strings are ASCII). -/
def isSpaceChar (c : Char) : Bool :=
  c == ' ' || c == '\t' || c == '\n' || c == '\r' || c == '\x0b' || c == '\x0c'

/-- Python `str.strip()`. -/
def pyStrip (s : String) : String :=
  ⟨((s.data.dropWhile isSpaceChar).reverse.dropWhile isSpaceChar).reverse⟩

/-- Python `str.lstrip(".")`. -/
def pyLstripDot (s : String) : String := ⟨s.data.dropWhile (· == '.')⟩

/-- ASCII lower-casing of one character (Python `str.lower` on the ASCII
format strings the repository uses). -/
def lowerChar (c : Char) : Char :=
  if 65 ≤ c.toNat && c.toNat ≤ 90 then Char.ofNat (c.toNat + 32) else c

/-- Python `str.lower()`. -/
def pyLower (s : String) : String := ⟨s.data.map lowerChar⟩

/-- Python `c.isalnum()` on ASCII characters. -/
def isAlnumAscii (c : Char) : Bool :=
  (48 ≤ c.toNat && c.toNat ≤ 57) || (65 ≤ c.toNat && c.toNat ≤ 90) ||
  (97 ≤ c.toNat && c.toNat ≤ 122)

/-- Python `value or ""` as applied to the string-typed `format` attribute:
a falsy value becomes the empty string. -/
def orEmptyText (v : Value) : String := if truthy v then pyStr v else ""

/-- collection/locator.py `_suffix`: `.zip` when `is_zip` is truthy, else
the sanitized (stripped, dot-left-stripped, lowered) format when it is
non-empty and all its characters are alphanumeric or `-`/`_`, else the
empty string. -/
def locSuffix (filing : Inst) : String :=
  if truthy (attr filing "is_zip") then ".zip"
  else
    let fmt := pyLower (pyLstripDot (pyStrip (orEmptyText (attr filing "format"))))
    if !fmt.isEmpty && fmt.data.all (fun c => isAlnumAscii c || c == '-' || c == '_')
    then "." ++ fmt
    else ""

/-- collection/locator.py `Locator.resolve`: the storage key is
`source/id` followed by the suffix, with source and id used verbatim. -/
def locResolve (filing : Inst) : String :=
  pyStr (attr filing "source") ++ "/" ++ pyStr (attr filing "id") ++ locSuffix filing

/-- A filing with an empty format and `is_zip` false (the input of
test_resolve.py line 90). -/
def fmtEmptyInst : Inst :=
  ⟨FilingCls,
   [("id", .vStr "x:1"), ("source", .vStr "s"), ("checksum", .vStr "x"),
    ("name", .vStr "n"), ("is_zip", .vBool false), ("format", .vStr ""),
    ("created_at", .vDatetime now0)]⟩

/-- A filing with empty source and id (the input of test_resolve.py
line 30). -/
def emptySrcInst : Inst :=
  ⟨FilingCls,
   [("id", .vStr ""), ("source", .vStr ""), ("checksum", .vStr ""),
    ("name", .vStr ""), ("is_zip", .vBool false), ("format", .vStr "xbrl"),
    ("created_at", .vDatetime now0)]⟩

/-- C9 fails on the code: with an empty format and `is_zip` false the
resolver emits NO extension at all (not the documented `.xbrl` default the
resolve docstring and test_resolve.py line 100 expect), and an empty source
and id are used verbatim (no `_` placeholder, against test_resolve.py
line 46). -/
theorem C9_resolve_no_default_no_placeholder :
    locResolve fmtEmptyInst = "s/x:1" ∧
    locResolve fmtEmptyInst ≠ "s/x:1.xbrl" ∧
    locResolve emptySrcInst = "/.xbrl" ∧
    locResolve emptySrcInst ≠ "_/_.xbrl" := by decide

/-! Storage key sanitization and the local storage (collection/storage.py,
collection/storages/local.py). -/

/-- The `ValueError` raised by `_sanitize_storage_key`, one constructor per
message. -/
inductive StorageKeyErr
  | mustBeNonEmptyRelative
  | mustNotBeAbsolute
  | mustNotContainParent
  | mustNotEscapeBase
deriving DecidableEq, Repr

/-- Splitting a character list on a separator character. -/
def splitChar (c : Char) : List Char → List (List Char)
  | [] => [[]]
  | x :: xs =>
    let r := splitChar c xs
    if x == c then [] :: r
    else
      match r with
      | h :: t => (x :: h) :: t
      | [] => [[x]]

/-- Components of `PurePosixPath(key)` for a relative key: the slash-split
pieces without empty and single-dot components. -/
def pathParts (s : String) : List String :=
  ((splitChar '/' s.data).map (fun l => (⟨l⟩ : String))).filter
    (fun p => !(p == "") && !(p == "."))

/-- Does the key start with a slash (`str.startswith("/")`, which on POSIX
also decides `Path.is_absolute`)? -/
def startsWithSlash (s : String) : Bool :=
  match s.data with
  | c :: _ => c == '/'
  | [] => false

/-- Lexical `Path.resolve` over components in a filesystem without
symlinks: a parent-directory segment pops the last component. -/
def normalizeParts (l : List String) : List String :=
  l.foldl (fun acc p => if p == ".." then acc.dropLast else acc ++ [p]) []

/-- collection/storage.py `_sanitize_storage_key`: reject an empty or
slash-led key, an absolute path, any `..` component, and any resolved path
not inside the resolved base directory; return the resolved absolute path
(as its component list) otherwise. -/
def sanitize_storage_key (storage_key : String) (base : List String) :
    Except StorageKeyErr (List String) :=
  if storage_key == "" || startsWithSlash storage_key then
    .error .mustBeNonEmptyRelative
  else if startsWithSlash storage_key then
    .error .mustNotBeAbsolute
  else if (pathParts storage_key).contains ".." then
    .error .mustNotContainParent
  else if (normalizeParts base).isPrefixOf
      (normalizeParts (base ++ pathParts storage_key)) then
    .ok (normalizeParts (base ++ pathParts storage_key))
  else .error .mustNotEscapeBase

/-- The local filesystem under the base directory: a map from absolute path
components to file bytes. -/
abbrev StorageState := List (List String × Bytes)

/-- File write (overwriting) at an absolute path. -/
def storeSet : StorageState → List String → Bytes → StorageState
  | [], p, c => [(p, c)]
  | (p', c') :: rest, p, c =>
    if p' == p then (p, c) :: rest else (p', c') :: storeSet rest p c

/-- File read at an absolute path. -/
def storeGet (st : StorageState) (p : List String) : Option Bytes :=
  (st.find? (fun q => q.1 == p)).map (·.2)

/-- collection/storages/local.py `LocalStorage.save`: sanitize the key
first; only on success write the file (overwriting an existing one) and
return the absolute path actually written. -/
def storageSave (st : StorageState) (base : List String) (content : Bytes)
    (storage_key : String) : Except StorageKeyErr (List String × StorageState) :=
  match sanitize_storage_key storage_key base with
  | .error e => .error e
  | .ok full => .ok (full, storeSet st full content)

/-- An error of `LocalStorage.load_by_path`: the sanitize `ValueError` or
`FileNotFoundError` from reading a missing file. -/
inductive LoadErr
  | keyErr (e : StorageKeyErr)
  | fileNotFound
deriving DecidableEq, Repr

/-- collection/storages/local.py `LocalStorage.load_by_path`: sanitize the
relative path, then read the bytes; a missing file is `FileNotFoundError`. -/
def loadByPath (st : StorageState) (base : List String) (relative_path : String) :
    Except LoadErr Bytes :=
  match sanitize_storage_key relative_path base with
  | .error e => .error (.keyErr e)
  | .ok full =>
    match storeGet st full with
    | some c => .ok c
    | none => .error .fileNotFound

theorem foldl_step_no_parent (l : List String) (acc : List String)
    (hl : ∀ p ∈ l, p ≠ "..") :
    l.foldl (fun acc p => if p == ".." then acc.dropLast else acc ++ [p]) acc =
      acc ++ l := by
  induction l generalizing acc with
  | nil => simp
  | cons x xs ih =>
    have hx : (x == "..") = false := beq_eq_false_iff_ne.mpr (hl x (by simp))
    simp only [List.foldl_cons, hx, Bool.false_eq_true, if_false]
    rw [ih (acc ++ [x]) (fun p hp => hl p (by simp [hp]))]
    simp

theorem normalizeParts_no_parent (l : List String) (hl : ∀ p ∈ l, p ≠ "..") :
    normalizeParts l = l := by
  unfold normalizeParts
  simpa using foldl_step_no_parent l [] hl

theorem sanitize_bad_err (key : String) (base : List String)
    (hbad : key = "" ∨ startsWithSlash key = true ∨
      (pathParts key).contains ".." = true) :
    ∃ e, sanitize_storage_key key base = .error e := by
  rcases hbad with h | h | h
  · exact ⟨.mustBeNonEmptyRelative, by
      unfold sanitize_storage_key; rw [if_pos (by simp [h])]⟩
  · exact ⟨.mustBeNonEmptyRelative, by
      unfold sanitize_storage_key; rw [if_pos (by simp [h])]⟩
  · by_cases h0 : (key == "" || startsWithSlash key) = true
    · exact ⟨.mustBeNonEmptyRelative, by
        unfold sanitize_storage_key; rw [if_pos h0]⟩
    · have hsw : ¬ (startsWithSlash key = true) := fun hs => h0 (by simp [hs])
      exact ⟨.mustNotContainParent, by
        unfold sanitize_storage_key; rw [if_neg h0, if_neg hsw, if_pos h]⟩

theorem sanitize_ok_shape (key : String) (base : List String)
    (hbase : ∀ p ∈ base, p ≠ "..") (resolved : List String)
    (hok : sanitize_storage_key key base = .ok resolved) :
    resolved = base ++ pathParts key := by
  unfold sanitize_storage_key at hok
  by_cases h0 : (key == "" || startsWithSlash key) = true
  · rw [if_pos h0] at hok; cases hok
  · rw [if_neg h0] at hok
    by_cases hsw : startsWithSlash key = true
    · rw [if_pos hsw] at hok; cases hok
    · rw [if_neg hsw] at hok
      by_cases h1 : ((pathParts key).contains "..") = true
      · rw [if_pos h1] at hok; cases hok
      · rw [if_neg h1] at hok
        have hparts : ∀ p ∈ pathParts key, p ≠ ".." := fun p hp hpe =>
          h1 (List.elem_iff.mpr (hpe ▸ hp))
        have hall : ∀ p ∈ base ++ pathParts key, p ≠ ".." := by
          intro p hp
          rcases List.mem_append.mp hp with hm | hm
          exacts [hbase p hm, hparts p hm]
        rw [normalizeParts_no_parent _ hall, normalizeParts_no_parent base hbase]
          at hok
        by_cases hp : base.isPrefixOf (base ++ pathParts key) = true
        · rw [if_pos hp] at hok
          exact (Except.ok.inj hok).symm
        · rw [if_neg hp] at hok; cases hok

/-- C3: a storage key that is empty, slash-led (absolute), or contains a
parent-directory component is rejected by both `save` and `load_by_path`
(no write and no read happens), and every accepted key writes to a path
whose components extend the base directory — no caller-supplied key maps
outside the base. -/
theorem C3_storage_path_safety (key : String) (base : List String)
    (st : StorageState) (content : Bytes) (hbase : ∀ p ∈ base, p ≠ "..") :
    (key = "" ∨ startsWithSlash key = true ∨ (pathParts key).contains ".." = true →
      (∃ e, storageSave st base content key = .error e) ∧
      (∃ e, loadByPath st base key = .error (.keyErr e))) ∧
    (∀ full st', storageSave st base content key = .ok (full, st') →
      ∃ rest, full = base ++ rest ∧ st' = storeSet st (base ++ rest) content) := by
  constructor
  · intro hbad
    rcases sanitize_bad_err key base hbad with ⟨e, he⟩
    exact ⟨⟨e, by simp [storageSave, he]⟩, ⟨e, by simp [loadByPath, he]⟩⟩
  · intro full st' hok
    unfold storageSave at hok
    rcases hsan : sanitize_storage_key key base with e | resolved
    · rw [hsan] at hok; cases hok
    · rw [hsan] at hok
      have hshape := sanitize_ok_shape key base hbase resolved hsan
      refine ⟨pathParts key, ?_, ?_⟩
      · cases hok; exact hshape
      · cases hok; rw [← hshape]

/-- Witness for C3 at concrete inputs: the traversal key `../x` is rejected
by save and load, and the accepted key `a/b.zip` writes to a path extending
the base. -/
theorem C3_storage_path_safety_witness :
    (∃ e, storageSave [] ["srv", "data"] [1, 2] "../x" = .error e) ∧
    (∃ e, loadByPath [] ["srv", "data"] "../x" = .error (.keyErr e)) ∧
    (∃ rest, ["srv", "data", "a", "b.zip"] = ["srv", "data"] ++ rest ∧
      storeSet [] (["srv", "data"] ++ rest) [1, 2] =
        storeSet [] ["srv", "data", "a", "b.zip"] [1, 2]) := by
  have h1 := (C3_storage_path_safety "../x" ["srv", "data"] [] [1, 2] (by decide)).1
    (Or.inr (Or.inr (by decide)))
  have h2 := (C3_storage_path_safety "a/b.zip" ["srv", "data"] [] [1, 2]
    (by decide)).2 ["srv", "data", "a", "b.zip"]
    (storeSet [] ["srv", "data", "a", "b.zip"] [1, 2]) (by decide)
  rcases h2 with ⟨rest, hrest, hst⟩
  exact ⟨h1.1, h1.2, ⟨rest, hrest, by rw [← hst]⟩⟩

/-! The Catalog (collection/catalog.py). -/

/-- One cell of a catalog row: a plain column value (None when absent) or
the JSON `data` column. `json.dumps` is injective on these dicts, so the
JSON text is modelled by the dict itself. -/
inductive Cell
  | vcell (v : Option Value)
  | jcell (d : Dict)
deriving DecidableEq, Repr

/-- The `filings` table: its column names in order and its rows keyed by
the primary-key `id` (INSERT OR REPLACE semantics), each row listing cells
in column order. -/
structure Catalog where
  cols : List String
  rows : List (String × List Cell)
deriving DecidableEq, Repr

/-- collection/catalog.py `_CORE_COLUMNS`. -/
def CORE_COLUMNS : List String :=
  ["id", "source", "checksum", "name", "is_zip", "format", "created_at", "data"]

/-- collection/catalog.py `Catalog._init_schema`: the table starts with the
seven core columns and `data`; no `_filing_class` column is created. -/
def emptyCatalog : Catalog := ⟨CORE_COLUMNS, []⟩

/-- filing/filing.py `Filing.get_indexed_fields`. -/
def get_indexed_fields (cls : FilingClass) : List String :=
  (cls.fields.filter (fun p => p.2.indexed)).map (fun p => p.2.name)

/-- collection/catalog.py `Catalog._ensure_indexed_columns`: append a
column for every indexed field not present yet (skipping `data`). -/
def ensureIndexedCols (cat : Catalog) (cls : FilingClass) : Catalog :=
  ⟨(get_indexed_fields cls).foldl
    (fun cols n => if cols.contains n || n == "data" then cols else cols ++ [n])
    cat.cols,
   cat.rows⟩

/-- collection/error.py `CatalogRequiredValueError` payload. -/
inductive CatalogErr
  | requiredValue (field : String) (value : Value)
deriving DecidableEq, Repr

/-- Keyed row insertion (INSERT OR REPLACE on the `id` primary key). -/
def rowSet : List (String × List Cell) → String → List Cell →
    List (String × List Cell)
  | [], k, r => [(k, r)]
  | (k', r') :: rest, k, r =>
    if k' == k then (k, r) :: rest else (k', r') :: rowSet rest k r

/-- collection/catalog.py `Catalog.index`: serialize the filing, add
`_filing_class`, validate the seven core values non-null and non-empty,
ensure the indexed columns, then insert one row writing the FULL serialized
dict (core fields and `_filing_class` included) into the `data` column and
the core/indexed values into their physical columns. -/
def catalogIndex (cat : Catalog) (filing : Inst) : Except CatalogErr Catalog :=
  let filing_dict := dset (to_dict filing.data) "_filing_class"
    (.vStr filing.cls.className)
  match (CORE_COLUMNS.filter (fun k => !(k == "data"))).find?
      (fun k =>
        let v := (dget filing_dict k).getD .vNone
        v == .vNone || v == .vStr "") with
  | some k => .error (.requiredValue k ((dget filing_dict k).getD .vNone))
  | none =>
    let cat1 := ensureIndexedCols cat filing.cls
    let indexedSet := get_indexed_fields filing.cls
    let row := cat1.cols.map (fun col =>
      if col == "data" then Cell.jcell filing_dict
      else if indexedSet.contains col || CORE_COLUMNS.contains col then
        Cell.vcell (dget filing_dict col)
      else Cell.vcell none)
    .ok ⟨cat1.cols, rowSet cat1.rows (pyStr ((dget filing_dict "id").getD .vNone)) row⟩

/-- The `data` cell of a row. -/
def dataCellOf (cells : List Cell) : Dict :=
  match cells.find? (fun c => match c with | .jcell _ => true | _ => false) with
  | some (.jcell d) => d
  | _ => []

/-- The catalog on an `ok` result (empty otherwise). -/
def okCatalog : Except CatalogErr Catalog → Catalog
  | .ok c => c
  | .error _ => emptyCatalog

/-- The base filing of test_filing_class.py line 217 (the data-column
content test). -/
def c8Inst : Inst :=
  ⟨FilingCls,
   [("id", .vStr "fc_data_only_001"), ("source", .vStr "test"),
    ("checksum", .vStr "abc123"), ("name", .vStr "f.txt"),
    ("is_zip", .vBool false), ("format", .vStr "xbrl"),
    ("created_at", .vDatetime now0)]⟩

/-- The catalog after indexing that filing into a fresh schema. -/
def c8Cat : Catalog := okCatalog (catalogIndex emptyCatalog c8Inst)

/-- The `data` column of the inserted row. -/
def c8Data : Dict :=
  dataCellOf (((c8Cat.rows.find? (fun p => p.1 == "fc_data_only_001")).map
    (·.2)).getD [])

/-- C8 fails on the code: after `Catalog.index`, the `data` column of the
stored row contains ALL seven core fields and the `_filing_class` value,
and the table has no `_filing_class` physical column at all. -/
theorem C8_core_fields_inside_data :
    (catalogIndex emptyCatalog c8Inst).toOption.isSome = true ∧
    c8Cat.cols.contains "_filing_class" = false ∧
    (dget c8Data "id").isSome = true ∧
    (dget c8Data "source").isSome = true ∧
    (dget c8Data "checksum").isSome = true ∧
    (dget c8Data "name").isSome = true ∧
    (dget c8Data "is_zip").isSome = true ∧
    (dget c8Data "format").isSome = true ∧
    (dget c8Data "created_at").isSome = true ∧
    dget c8Data "_filing_class" =
      some (.vStr "fino_filing.filing.filing.Filing") := by
  decide

/-! The Collection facade (collection/collection.py). -/

/-- The `FilingResolver` registry (fully-qualified name to class). The
dynamic-import fallback of `FilingResolver._resolve_by_import` depends on
the runtime environment and is modelled as a registry miss. -/
abbrev Resolver := List (String × FilingClass)

/-- Removal of a key (`dict.pop`). -/
def dremove : Dict → String → Dict
  | [], _ => []
  | (k', v') :: rest, k =>
    if k' == k then rest else (k', v') :: dremove rest k

/-- collection/catalog.py `Catalog.get_raw`: the parsed `data` column of
the row with this id, or None. -/
def catalogGetRaw (cat : Catalog) (id : String) : Option Dict :=
  (cat.rows.find? (fun p => p.1 == id)).map (fun p => dataCellOf p.2)

/-- collection/catalog.py `Catalog._resolve_data_to_filing`: pop
`_filing_class`, resolve the class (falling back to the base `Filing`),
and rebuild through `from_dict`. -/
def resolveDataToFiling (reg : Resolver) (d : Dict) (now : String) :
    Except ConstructErr Inst :=
  let cls := match dget d "_filing_class" with
    | some (.vStr n) =>
      match (reg.find? (fun p => p.1 == n)).map (·.2) with
      | some c => c
      | none => FilingCls
    | _ => FilingCls
  from_dict cls (dremove d "_filing_class") now

/-- collection/catalog.py `Catalog.get`: reconstruct the row's filing; a
reconstruction error propagates to the caller. -/
def catalogGet (reg : Resolver) (cat : Catalog) (id : String) (now : String) :
    Except ConstructErr (Option Inst) :=
  match catalogGetRaw cat id with
  | none => .ok none
  | some raw =>
    match resolveDataToFiling reg raw now with
    | .ok f => .ok (some f)
    | .error e => .error e

/-- The collection's two stores. -/
structure CollState where
  catalog : Catalog
  storage : StorageState
deriving DecidableEq, Repr

/-- An error escaping `Collection.add`: the checksum mismatch (carrying the
filing id, the actual and the expected checksum), the locator resolution
failure, a catalog indexing error, a reconstruction error from the
duplicate check, or the storage `ValueError`. -/
inductive AddErr
  | checksumMismatch (filing_id : Value) (actual : String) (expected : Value)
  | locatorPathResolution
  | catalogErr (e : CatalogErr)
  | constructErr (e : ConstructErr)
  | storageErr (e : StorageKeyErr)
deriving DecidableEq, Repr

/-- Rendering of an absolute path (`str(full_path)`). -/
def pathStr (l : List String) : String := "/" ++ String.intercalate "/" l

/-- collection/collection.py `Collection.add`: check the checksum, resolve
the storage key, check the catalog for a duplicate id (skipping indexing on
a hit), index the filing, then write the content to storage. The pair
returned carries the result together with the state after the performed
effects (an exception leaves the already-performed effects in place). -/
def collectionAdd (reg : Resolver) (base : List String) (st : CollState)
    (filing : Inst) (content : Bytes) (now : String) :
    Except AddErr String × CollState :=
  let actual := sha256hex content
  let expected := attr filing "checksum"
  if Value.vStr actual != expected then
    (.error (.checksumMismatch (attr filing "id") actual expected), st)
  else
    let filing_id := pyStr (attr filing "id")
    match (some (locResolve filing) : Option String) with
    | none => (.error .locatorPathResolution, st)
    | some storage_key =>
      match catalogGet reg st.catalog filing_id now with
      | .error e => (.error (.constructErr e), st)
      | .ok (some _) =>
        match storageSave st.storage base content storage_key with
        | .error e => (.error (.storageErr e), st)
        | .ok (full, stor') => (.ok (pathStr full), ⟨st.catalog, stor'⟩)
      | .ok none =>
        match catalogIndex st.catalog filing with
        | .error e => (.error (.catalogErr e), st)
        | .ok cat' =>
          match storageSave st.storage base content storage_key with
          | .error e => (.error (.storageErr e), ⟨cat', st.storage⟩)
          | .ok (full, stor') => (.ok (pathStr full), ⟨cat', stor'⟩)

/-- C2: whenever the SHA-256 of the content differs from the filing's
declared checksum, `add` fails with the checksum-mismatch error carrying
the filing id, the actual and the expected checksum, and the state (catalog
and storage) is returned unchanged — no side effects. -/
theorem C2_checksum_gate (reg : Resolver) (base : List String) (st : CollState)
    (filing : Inst) (content : Bytes) (now : String)
    (h : Value.vStr (sha256hex content) ≠ attr filing "checksum") :
    collectionAdd reg base st filing content now =
      (.error (.checksumMismatch (attr filing "id") (sha256hex content)
        (attr filing "checksum")), st) := by
  unfold collectionAdd
  rw [if_pos (by simpa [bne_iff_ne] using h)]

/-- A filing whose declared checksum does not match the content below. -/
def c2Inst : Inst :=
  ⟨FilingCls,
   [("id", .vStr "c2id"), ("source", .vStr "edinet"), ("checksum", .vStr "00"),
    ("name", .vStr "n"), ("is_zip", .vBool false), ("format", .vStr "xbrl"),
    ("created_at", .vDatetime now0)]⟩

/-- Witness for C2 at a concrete input: adding the bytes of `abc` against a
declared checksum `00` fails with the mismatch payload and leaves the empty
state untouched. -/
theorem C2_checksum_gate_witness :
    Value.vStr (sha256hex [97, 98, 99]) ≠ attr c2Inst "checksum" ∧
    collectionAdd [] ["b"] ⟨emptyCatalog, []⟩ c2Inst [97, 98, 99] now0 =
      (.error (.checksumMismatch (attr c2Inst "id") (sha256hex [97, 98, 99])
        (attr c2Inst "checksum")), ⟨emptyCatalog, []⟩) :=
  ⟨by decide,
   C2_checksum_gate [] ["b"] ⟨emptyCatalog, []⟩ c2Inst [97, 98, 99] now0 (by decide)⟩

/-- C7 (amended): within `add`, the catalog index step runs BEFORE the
storage write; once the checksum matches, the id is new and indexing
succeeds, the final catalog holds the indexed entry whether the storage
write succeeds or fails — so a storage failure leaves the catalog with an
entry whose content write failed. -/
theorem C7_index_before_storage (reg : Resolver) (base : List String)
    (st : CollState) (filing : Inst) (content : Bytes) (now : String)
    (cat' : Catalog)
    (hsum : Value.vStr (sha256hex content) = attr filing "checksum")
    (hget : catalogGet reg st.catalog (pyStr (attr filing "id")) now = .ok none)
    (hidx : catalogIndex st.catalog filing = .ok cat') :
    (∀ e, storageSave st.storage base content (locResolve filing) = .error e →
      collectionAdd reg base st filing content now =
        (.error (.storageErr e), ⟨cat', st.storage⟩)) ∧
    (∀ full stor',
      storageSave st.storage base content (locResolve filing) = .ok (full, stor') →
      collectionAdd reg base st filing content now =
        (.ok (pathStr full), ⟨cat', stor'⟩)) := by
  constructor
  · intro e hsave
    simp [collectionAdd, ← hsum, hget, hidx, hsave]
  · intro full stor' hsave
    simp [collectionAdd, ← hsum, hget, hidx, hsave]

/-- A filing whose source begins with a slash, so the locator key is
rejected by storage sanitization; its checksum matches the empty content. -/
def c7Inst : Inst :=
  ⟨FilingCls,
   [("id", .vStr "c7id"), ("source", .vStr "/x"),
    ("checksum",
     .vStr "e3b0c44298fc1c149afbf4c8996fb92427ae41e4649b934ca495991b7852b855"),
    ("name", .vStr "n"), ("is_zip", .vBool false), ("format", .vStr "xbrl"),
    ("created_at", .vDatetime now0)]⟩

/-- The catalog after `add` indexes that filing. -/
def c7Cat : Catalog := okCatalog (catalogIndex emptyCatalog c7Inst)

/-- Witness for C7 at a concrete input: the storage write fails, the call
fails, and the final catalog is the indexed one. -/
theorem C7_index_before_storage_witness :
    collectionAdd [] ["b"] ⟨emptyCatalog, []⟩ c7Inst [] now0 =
      (.error (.storageErr .mustBeNonEmptyRelative), ⟨c7Cat, []⟩) :=
  (C7_index_before_storage [] ["b"] ⟨emptyCatalog, []⟩ c7Inst [] now0 c7Cat
    (by decide) (by decide) (by decide)).1 .mustBeNonEmptyRelative (by decide)

/-- C7 counterexample: on this concrete `add` the storage write fails, yet
the returned catalog HAS acquired the row for the filing's id — the index
step did not come after a successful storage write, and the catalog gains
an entry whose content write failed, contradicting the claim. -/
theorem C7_counterexample :
    (collectionAdd [] ["b"] ⟨emptyCatalog, []⟩ c7Inst [] now0).1 =
      .error (.storageErr .mustBeNonEmptyRelative) ∧
    ((collectionAdd [] ["b"] ⟨emptyCatalog, []⟩ c7Inst [] now0).2.catalog.rows.find?
      (fun p => p.1 == "c7id")).isSome = true := by
  decide

/-- An error escaping `Collection.get_content`: a reconstruction error from
`Catalog.get` or the sanitize `ValueError` (only `FileNotFoundError` is
caught). -/
inductive GetErr
  | constructErr (e : ConstructErr)
  | keyErr (e : StorageKeyErr)
deriving DecidableEq, Repr

/-- collection/collection.py `Collection.get_content`: None when the
catalog has no row, None when the locator yields no path, the loaded bytes
otherwise, with `FileNotFoundError` converted to None. -/
def collectionGetContent (reg : Resolver) (base : List String) (st : CollState)
    (id : String) (now : String) : Except GetErr (Option Bytes) :=
  match catalogGet reg st.catalog id now with
  | .error e => .error (.constructErr e)
  | .ok none => .ok none
  | .ok (some filing) =>
    match (some (locResolve filing) : Option String) with
    | none => .ok none
    | some path =>
      match loadByPath st.storage base path with
      | .ok c => .ok (some c)
      | .error .fileNotFound => .ok none
      | .error (.keyErr e) => .error (.keyErr e)

/-- C10: `get_content` returns None (and does not raise) when the catalog
has no row for the id, and when the row's filing resolves to a path whose
file does not exist (`FileNotFoundError` caught); when the file exists its
bytes are returned. -/
theorem C10_get_content_missing_is_none (reg : Resolver) (base : List String)
    (st : CollState) (id : String) (now : String) :
    (catalogGetRaw st.catalog id = none →
      collectionGetContent reg base st id now = .ok none) ∧
    (∀ filing, catalogGet reg st.catalog id now = .ok (some filing) →
      loadByPath st.storage base (locResolve filing) = .error .fileNotFound →
      collectionGetContent reg base st id now = .ok none) ∧
    (∀ filing c, catalogGet reg st.catalog id now = .ok (some filing) →
      loadByPath st.storage base (locResolve filing) = .ok c →
      collectionGetContent reg base st id now = .ok (some c)) := by
  refine ⟨?_, ?_, ?_⟩
  · intro h
    simp [collectionGetContent, catalogGet, h]
  · intro filing hget hload
    simp [collectionGetContent, hget, hload]
  · intro filing c hget hload
    simp [collectionGetContent, hget, hload]

/-- A well-formed base filing used to populate the catalog for C10. -/
def c10Inst : Inst :=
  ⟨FilingCls,
   [("id", .vStr "c10id"), ("source", .vStr "edinet"),
    ("checksum", .vStr "abc123"), ("name", .vStr "n"),
    ("is_zip", .vBool false), ("format", .vStr "xbrl"),
    ("created_at", .vDatetime now0)]⟩

/-- A catalog holding only that filing. -/
def c10Cat : Catalog := okCatalog (catalogIndex emptyCatalog c10Inst)

/-- The filing as the catalog reconstructs it. -/
def c10Got : Inst :=
  (match catalogGet [] c10Cat "c10id" now0 with
   | .ok (some f) => f
   | _ => ⟨FilingCls, []⟩)

/-- Witness for C10 at concrete inputs: a missing id gives None, a
catalogued filing with no file on disk gives None, and with the file
present its bytes come back. -/
theorem C10_get_content_missing_is_none_witness :
    collectionGetContent [] ["b"] ⟨c10Cat, []⟩ "zzz" now0 = .ok none ∧
    collectionGetContent [] ["b"] ⟨c10Cat, []⟩ "c10id" now0 = .ok none ∧
    collectionGetContent [] ["b"]
      ⟨c10Cat, storeSet [] ["b", "edinet", "c10id.xbrl"] [7, 8]⟩ "c10id" now0 =
      .ok (some [7, 8]) := by
  refine ⟨?_, ?_, ?_⟩
  · exact (C10_get_content_missing_is_none [] ["b"] ⟨c10Cat, []⟩ "zzz" now0).1
      (by decide)
  · exact (C10_get_content_missing_is_none [] ["b"] ⟨c10Cat, []⟩ "c10id" now0).2.1
      c10Got (by decide) (by decide)
  · exact (C10_get_content_missing_is_none [] ["b"]
      ⟨c10Cat, storeSet [] ["b", "edinet", "c10id.xbrl"] [7, 8]⟩ "c10id" now0).2.2
      c10Got [7, 8] (by decide) (by decide)

/-! Dictionary lemmas for the round-trip claim. -/

/-- Keys of a dict, in order. -/
def dkeys (d : Dict) : List String := d.map (·.1)

theorem dget_cons (p : String × Value) (rest : Dict) (k : String) :
    dget (p :: rest) k = if p.1 == k then some p.2 else dget rest k := by
  by_cases h : p.1 == k <;> simp [dget, List.find?, h]

theorem dset_cons (p : String × Value) (rest : Dict) (k : String) (v : Value) :
    dset (p :: rest) k v =
      if p.1 == k then (k, v) :: rest else p :: dset rest k v := by
  rcases p with ⟨k', v'⟩
  by_cases h : k' == k <;> simp [dset, h]

theorem dget_dset_self (d : Dict) (k : String) (v : Value) :
    dget (dset d k v) k = some v := by
  induction d with
  | nil => simp [dset, dget_cons]
  | cons p rest ih =>
    rw [dset_cons]
    by_cases h : p.1 == k
    · rw [if_pos h, dget_cons]; simp
    · rw [if_neg h, dget_cons, if_neg h]; exact ih

theorem dget_dset_ne (d : Dict) (k k' : String) (v : Value) (h : k' ≠ k) :
    dget (dset d k v) k' = dget d k' := by
  have hk : (k == k') = false := beq_eq_false_iff_ne.mpr (fun he => h he.symm)
  induction d with
  | nil => simp [dset, dget_cons, hk, dget]
  | cons p rest ih =>
    rw [dset_cons]
    by_cases hp : p.1 == k
    · have hpk : p.1 = k := beq_iff_eq.mp hp
      rw [if_pos hp, dget_cons, dget_cons, hpk, hk]
      simp
    · rw [if_neg hp, dget_cons, dget_cons, ih]

theorem dkeys_dset (d : Dict) (k : String) (v : Value) :
    dkeys (dset d k v) = if k ∈ dkeys d then dkeys d else dkeys d ++ [k] := by
  induction d with
  | nil => simp [dset, dkeys]
  | cons p rest ih =>
    rw [dset_cons]
    by_cases h : p.1 == k
    · have hpk : p.1 = k := beq_iff_eq.mp h
      rw [if_pos h]
      simp [dkeys, hpk]
    · have hpk : ¬ (k = p.1) := fun he => by simp [he] at h
      rw [if_neg h]
      simp only [dkeys, List.map_cons] at ih ⊢
      rw [ih]
      by_cases hm : k ∈ List.map (·.1) rest
      · rw [if_pos hm, if_pos (by simp [hm])]
      · rw [if_neg hm, if_neg (by simp [hpk, hm])]
        rfl

theorem nodup_dkeys_dset (d : Dict) (k : String) (v : Value)
    (h : (dkeys d).Nodup) : (dkeys (dset d k v)).Nodup := by
  rw [dkeys_dset]
  by_cases hm : k ∈ dkeys d
  · rw [if_pos hm]; exact h
  · rw [if_neg hm]
    simp [List.nodup_append, h, hm]

theorem dget_isSome_iff_mem (d : Dict) (k : String) :
    (dget d k).isSome = true ↔ k ∈ dkeys d := by
  induction d with
  | nil => simp [dget, dkeys]
  | cons p rest ih =>
    rw [dget_cons]
    by_cases h : p.1 == k
    · simp [dkeys, beq_iff_eq.mp h]
    · have hne : ¬ k = p.1 := fun he => by simp [he] at h
      simp only [h, Bool.false_eq_true, if_false, dkeys, List.map_cons,
        List.mem_cons]
      simp only [dkeys] at ih
      simp [hne, ih]

theorem dget_none_of_not_mem (d : Dict) (k : String) (h : k ∉ dkeys d) :
    dget d k = none := by
  rcases ho : dget d k with _ | v
  · rfl
  · exact absurd ((dget_isSome_iff_mem d k).mp (by rw [ho]; rfl)) h

theorem dget_of_mem_nodup (d : Dict) (k : String) (v : Value)
    (hnd : (dkeys d).Nodup) (hm : (k, v) ∈ d) : dget d k = some v := by
  induction d with
  | nil => cases hm
  | cons p rest ih =>
    rw [dget_cons]
    rcases List.mem_cons.mp hm with he | hm'
    · rw [← he]; simp
    · have hk : k ∈ dkeys rest := List.mem_map.mpr ⟨(k, v), hm', rfl⟩
      have hnd' : (p.1 :: dkeys rest).Nodup := hnd
      have hcons := List.nodup_cons.mp hnd'
      have hp1 : ¬ (p.1 == k) = true := by
        intro hb
        exact hcons.1 ((beq_iff_eq.mp hb) ▸ hk)
      rw [if_neg hp1]
      exact ih hcons.2 hm'

theorem mem_of_dget_eq_some (d : Dict) (k : String) (v : Value)
    (h : dget d k = some v) : k ∈ dkeys d :=
  (dget_isSome_iff_mem d k).mp (by rw [h]; rfl)

theorem find?_eq_dget (d : Dict) (k : String) :
    d.find? (fun p => p.1 == k) = (dget d k).map (fun v => (k, v)) := by
  induction d with
  | nil => simp [dget]
  | cons p rest ih =>
    rw [dget_cons]
    by_cases h : p.1 == k
    · rcases p with ⟨k', v'⟩
      have hpk : k' = k := beq_iff_eq.mp h
      subst hpk
      simp [List.find?, h]
    · simp [List.find?, h, ih]

theorem mem_dkeys_dset (d : Dict) (k k' : String) (v : Value) :
    k' ∈ dkeys (dset d k v) ↔ k' ∈ dkeys d ∨ k' = k := by
  rw [dkeys_dset]
  by_cases hm : k ∈ dkeys d
  · rw [if_pos hm]
    constructor
    · exact Or.inl
    · rintro (h | h)
      · exact h
      · exact h ▸ hm
  · rw [if_neg hm]; simp

/-! Characterizations of `setAttr` and `applySets`. -/

theorem setAttr_undeclared (r : Inst) (k : String) (v : Value)
    (hf : fieldOf r.cls k = none) : setAttr r k v = .ok r := by
  unfold setAttr; rw [hf]

theorem setAttr_new (r : Inst) (k : String) (v : Value) (f : FieldMeta)
    (hf : fieldOf r.cls k = some f) (hcur : dget r.data k = none) :
    setAttr r k v = .ok ⟨r.cls, dset r.data k v⟩ := by
  unfold setAttr; rw [hf, hcur]

theorem setAttr_over (r : Inst) (k : String) (v : Value) (f : FieldMeta)
    (cur : Value) (hf : fieldOf r.cls k = some f)
    (hcur : dget r.data k = some cur)
    (hcond : (f.immutable && cur != Value.vNone && cur != v) = false) :
    setAttr r k v = .ok ⟨r.cls, dset r.data k v⟩ := by
  unfold setAttr
  rw [hf, hcur]
  dsimp only
  rw [hcond]
  rfl

theorem setAttr_blocked (r : Inst) (k : String) (v : Value) (f : FieldMeta)
    (cur : Value) (hf : fieldOf r.cls k = some f)
    (hcur : dget r.data k = some cur)
    (hcond : (f.immutable && cur != Value.vNone && cur != v) = true) :
    setAttr r k v = .error ⟨k, cur, v⟩ := by
  unfold setAttr
  rw [hf, hcur]
  dsimp only
  rw [hcond]
  rfl

theorem setAttr_ok_cases (r : Inst) (k : String) (v : Value) (r' : Inst)
    (h : setAttr r k v = .ok r') :
    r'.cls = r.cls ∧
    ((fieldOf r.cls k = none ∧ r' = r) ∨
     ((fieldOf r.cls k).isSome = true ∧ r'.data = dset r.data k v ∧
       (∀ f cur, fieldOf r.cls k = some f → f.immutable = true →
         dget r.data k = some cur → cur = .vNone ∨ cur = v))) := by
  cases hf : fieldOf r.cls k with
  | none =>
    rw [setAttr_undeclared r k v hf] at h
    cases h
    exact ⟨rfl, Or.inl ⟨rfl, rfl⟩⟩
  | some f =>
    cases hcur : dget r.data k with
    | none =>
      rw [setAttr_new r k v f hf hcur] at h
      cases h
      refine ⟨rfl, Or.inr ⟨rfl, rfl, ?_⟩⟩
      intro f' cur hf' himm hcur'
      exact Option.noConfusion hcur'
    | some cur =>
      by_cases hcond : (f.immutable && cur != Value.vNone && cur != v) = true
      · rw [setAttr_blocked r k v f cur hf hcur hcond] at h
        cases h
      · rw [setAttr_over r k v f cur hf hcur (Bool.eq_false_iff.mpr hcond)] at h
        cases h
        refine ⟨rfl, Or.inr ⟨rfl, rfl, ?_⟩⟩
        intro f' cur' hf' himm hcur'
        cases hf'
        cases hcur'
        by_cases h1 : cur = Value.vNone
        · exact Or.inl h1
        · right
          by_contra h2
          exact hcond (by
            simp only [himm, Bool.true_and, Bool.and_eq_true, bne_iff_ne]
            exact ⟨h1, h2⟩)

theorem applySets_cons (r : Inst) (k : String) (v : Value) (rest : Dict) :
    applySets r ((k, v) :: rest) =
      match setAttr r k v with
      | .ok r1 => applySets r1 rest
      | .error e => .error e := rfl

/-- Success of a `setattr` loop over pairwise-distinct keys whose immutable
writes never conflict with the start data, with the resulting data described
pointwise. -/
theorem applySets_ok (cls : FilingClass) (start : Dict) (d : Dict)
    (hnd : (dkeys d).Nodup)
    (hsafe : ∀ k v f cur, (k, v) ∈ d → fieldOf cls k = some f →
      f.immutable = true → dget start k = some cur → cur = .vNone ∨ cur = v) :
    ∃ final : Dict, applySets ⟨cls, start⟩ d = .ok ⟨cls, final⟩ ∧
      (∀ k, dget final k =
        match dget d k, fieldOf cls k with
        | some v, some _ => some v
        | _, _ => dget start k) ∧
      (∀ k, k ∈ dkeys final ↔
        k ∈ dkeys start ∨ (k ∈ dkeys d ∧ (fieldOf cls k).isSome = true)) ∧
      ((dkeys start).Nodup → (dkeys final).Nodup) := by
  induction d generalizing start with
  | nil =>
    refine ⟨start, rfl, ?_, ?_, fun h => h⟩
    · intro k; simp [dget]
    · intro k; simp [dkeys]
  | cons p rest ih =>
    rcases p with ⟨k0, v0⟩
    have hnodup := List.nodup_cons.mp (show (k0 :: dkeys rest).Nodup from hnd)
    cases hf : fieldOf cls k0 with
    | none =>
      have hset : setAttr ⟨cls, start⟩ k0 v0 = .ok ⟨cls, start⟩ :=
        setAttr_undeclared ⟨cls, start⟩ k0 v0 hf
      obtain ⟨final, happ, hpt, hkeys, hnodup2⟩ := ih start hnodup.2
        (fun k v f cur hm => hsafe k v f cur (List.mem_cons_of_mem _ hm))
      refine ⟨final, by rw [applySets_cons, hset]; exact happ, ?_, ?_, hnodup2⟩
      · intro k
        rw [dget_cons]
        by_cases hkk : (k0 == k) = true
        · have hk0k : k0 = k := beq_iff_eq.mp hkk
          subst hk0k
          rw [if_pos hkk, hf, hpt k0,
            dget_none_of_not_mem rest k0 hnodup.1]
        · rw [if_neg hkk]
          exact hpt k
      · intro k
        rw [hkeys k]
        show _ ↔ k ∈ dkeys start ∨ (k ∈ k0 :: dkeys rest ∧ _)
        by_cases hkk : k = k0
        · subst hkk
          simp [hf]
        · simp [hkk]
    | some f =>
      cases hcur : dget start k0 with
      | none =>
        have hset : setAttr ⟨cls, start⟩ k0 v0 = .ok ⟨cls, dset start k0 v0⟩ :=
          setAttr_new ⟨cls, start⟩ k0 v0 f hf hcur
        obtain ⟨final, happ, hpt, hkeys, hnodup2⟩ := ih (dset start k0 v0) hnodup.2
          (fun k v f' cur hm hf' himm hcur' => by
            have hkne : k ≠ k0 := fun he =>
              hnodup.1 (he ▸ List.mem_map.mpr ⟨(k, v), hm, rfl⟩)
            exact hsafe k v f' cur (List.mem_cons_of_mem _ hm) hf' himm
              (by rw [← dget_dset_ne start k0 k v0 hkne]; exact hcur'))
        refine ⟨final, by rw [applySets_cons, hset]; exact happ, ?_, ?_, ?_⟩
        · intro k
          rw [dget_cons]
          by_cases hkk : (k0 == k) = true
          · have hk0k : k0 = k := beq_iff_eq.mp hkk
            subst hk0k
            rw [if_pos hkk, hf, hpt k0, dget_none_of_not_mem rest k0 hnodup.1,
              dget_dset_self]
          · have hkne : k ≠ k0 := fun he => by simp [he] at hkk
            rw [if_neg hkk, hpt k, dget_dset_ne start k0 k v0 hkne]
        · intro k
          rw [hkeys k, mem_dkeys_dset]
          show _ ↔ k ∈ dkeys start ∨ (k ∈ k0 :: dkeys rest ∧ _)
          by_cases hkk : k = k0
          · subst hkk
            simp [hf]
          · simp [hkk]
        · intro hs
          exact hnodup2 (nodup_dkeys_dset start k0 v0 hs)
      | some cur =>
        have hcond : (f.immutable && cur != Value.vNone && cur != v0) = false := by
          by_cases himm : f.immutable = true
          · rcases hsafe k0 v0 f cur (List.mem_cons_self _ _) hf himm hcur with h1 | h1
            · simp [h1]
            · simp [h1, himm]
          · simp [Bool.eq_false_iff.mpr himm]
        have hset : setAttr ⟨cls, start⟩ k0 v0 = .ok ⟨cls, dset start k0 v0⟩ :=
          setAttr_over ⟨cls, start⟩ k0 v0 f cur hf hcur hcond
        obtain ⟨final, happ, hpt, hkeys, hnodup2⟩ := ih (dset start k0 v0) hnodup.2
          (fun k v f' cur' hm hf' himm hcur' => by
            have hkne : k ≠ k0 := fun he =>
              hnodup.1 (he ▸ List.mem_map.mpr ⟨(k, v), hm, rfl⟩)
            exact hsafe k v f' cur' (List.mem_cons_of_mem _ hm) hf' himm
              (by rw [← dget_dset_ne start k0 k v0 hkne]; exact hcur'))
        refine ⟨final, by rw [applySets_cons, hset]; exact happ, ?_, ?_, ?_⟩
        · intro k
          rw [dget_cons]
          by_cases hkk : (k0 == k) = true
          · have hk0k : k0 = k := beq_iff_eq.mp hkk
            subst hk0k
            rw [if_pos hkk, hf, hpt k0, dget_none_of_not_mem rest k0 hnodup.1,
              dget_dset_self]
          · have hkne : k ≠ k0 := fun he => by simp [he] at hkk
            rw [if_neg hkk, hpt k, dget_dset_ne start k0 k v0 hkne]
        · intro k
          rw [hkeys k, mem_dkeys_dset]
          show _ ↔ k ∈ dkeys start ∨ (k ∈ k0 :: dkeys rest ∧ _)
          by_cases hkk : k = k0
          · subst hkk
            simp [hf]
          · simp [hkk]
        · intro hs
          exact hnodup2 (nodup_dkeys_dset start k0 v0 hs)

/-- From a successful `setattr` loop, extract that every immutable write
was compatible with the start data. -/
theorem applySets_ok_safe (cls : FilingClass) (start : Dict) (d : Dict)
    (r' : Inst) (hnd : (dkeys d).Nodup)
    (h : applySets ⟨cls, start⟩ d = .ok r') :
    ∀ k v f cur, (k, v) ∈ d → fieldOf cls k = some f → f.immutable = true →
      dget start k = some cur → cur = .vNone ∨ cur = v := by
  induction d generalizing start with
  | nil => intro k v f cur hm; cases hm
  | cons p rest ih =>
    rcases p with ⟨k0, v0⟩
    have hnodup := List.nodup_cons.mp (show (k0 :: dkeys rest).Nodup from hnd)
    intro k v f cur hm hf himm hcur
    rw [applySets_cons] at h
    cases hset : setAttr ⟨cls, start⟩ k0 v0 with
    | error e => rw [hset] at h; cases h
    | ok r1 =>
      rw [hset] at h
      have hcases := setAttr_ok_cases ⟨cls, start⟩ k0 v0 r1 hset
      rcases List.mem_cons.mp hm with he | hm'
      · have hk : k = k0 := congrArg Prod.fst he
        have hv : v = v0 := congrArg Prod.snd he
        subst hk; subst hv
        rcases hcases.2 with ⟨hnone, _⟩ | ⟨_, _, hsafe1⟩
        · rw [hf] at hnone; cases hnone
        · exact hsafe1 f cur hf himm hcur
      · have hkne : k ≠ k0 := fun he =>
          hnodup.1 (he ▸ List.mem_map.mpr ⟨(k, v), hm', rfl⟩)
        have hc : r1.cls = cls := hcases.1
        have hr1 : (⟨cls, r1.data⟩ : Inst) = r1 := by rw [← hc]
        have h' : applySets ⟨cls, r1.data⟩ rest = .ok r' := by rw [hr1]; exact h
        have hcur1 : dget r1.data k = some cur := by
          rcases hcases.2 with ⟨_, heq⟩ | ⟨_, hdata, _⟩
          · rw [heq]; exact hcur
          · rw [hdata, dget_dset_ne start k0 k v0 hkne]; exact hcur
        exact ih r1.data hnodup.2 h' k v f cur hm' hf himm hcur1

/-- Full inversion of a successful `setattr` loop: the class is unchanged
and the resulting data is the pointwise overlay of the writes. -/
theorem applySets_ok_inv (cls : FilingClass) (start : Dict) (d : Dict)
    (r' : Inst) (hnd : (dkeys d).Nodup)
    (h : applySets ⟨cls, start⟩ d = .ok r') :
    r'.cls = cls ∧
    (∀ k, dget r'.data k =
      match dget d k, fieldOf cls k with
      | some v, some _ => some v
      | _, _ => dget start k) ∧
    (∀ k, k ∈ dkeys r'.data ↔
      k ∈ dkeys start ∨ (k ∈ dkeys d ∧ (fieldOf cls k).isSome = true)) ∧
    ((dkeys start).Nodup → (dkeys r'.data).Nodup) := by
  obtain ⟨final, happ, hpt, hkeys, hnodup⟩ :=
    applySets_ok cls start d hnd (applySets_ok_safe cls start d r' hnd h)
  rw [h] at happ
  have : r' = ⟨cls, final⟩ := Except.ok.inj happ
  subst this
  exact ⟨rfl, hpt, hkeys, hnodup⟩

theorem mem_of_dget (d : Dict) (k : String) (v : Value)
    (h : dget d k = some v) : (k, v) ∈ d := by
  induction d with
  | nil => simp [dget] at h
  | cons p rest ih =>
    rw [dget_cons] at h
    by_cases hp : p.1 == k
    · rw [if_pos hp] at h
      have hv : p.2 = v := Option.some.inj h
      have hk : p.1 = k := beq_iff_eq.mp hp
      exact List.mem_cons.mpr (Or.inl (by rw [← hk, ← hv]))
    · rw [if_neg hp] at h
      exact List.mem_cons_of_mem _ (ih h)

/-- Behaviour of the conditional `created_at` / `id` fill steps of
`Filing.__init__`: the step writes a non-None value only when the slot is
None or absent, never disturbs other keys, and preserves non-None values. -/
theorem fillStep_spec (r2 : Inst) (name : String) (v : Value) (r3 : Inst)
    (hv : v ≠ .vNone)
    (h : (if (dget r2.data name).getD .vNone == .vNone
          then setAttr r2 name v else .ok r2) = .ok r3) :
    r3.cls = r2.cls ∧
    (∀ k, k ≠ name → dget r3.data k = dget r2.data k) ∧
    ((fieldOf r2.cls name).isSome = true →
      ∃ w, dget r3.data name = some w ∧ w ≠ .vNone) ∧
    (∀ k, k ∈ dkeys r3.data ↔ k ∈ dkeys r2.data ∨
      (k = name ∧ (fieldOf r2.cls name).isSome = true)) ∧
    ((dkeys r2.data).Nodup → (dkeys r3.data).Nodup) ∧
    (∀ k w, dget r2.data k = some w → w ≠ .vNone → dget r3.data k = some w) := by
  by_cases hg : ((dget r2.data name).getD .vNone == .vNone) = true
  · rw [if_pos hg] at h
    have hcases := setAttr_ok_cases r2 name v r3 h
    have hslot : dget r2.data name = none ∨ dget r2.data name = some .vNone := by
      rcases hd : dget r2.data name with _ | w
      · exact Or.inl rfl
      · right
        rw [hd] at hg
        have hwv : w = Value.vNone := beq_iff_eq.mp hg
        rw [hwv]
    rcases hcases.2 with ⟨hnone, heq⟩ | ⟨hdecl, hdata, _⟩
    · subst heq
      refine ⟨rfl, fun k _ => rfl, ?_, ?_, fun hn => hn, fun k w hw _ => hw⟩
      · intro hds; rw [hnone] at hds; cases hds
      · intro k
        simp [hnone]
    · refine ⟨hcases.1, ?_, ?_, ?_, ?_, ?_⟩
      · intro k hk
        rw [hdata]
        exact dget_dset_ne r2.data name k v hk
      · intro _
        rw [hdata, dget_dset_self]
        exact ⟨v, rfl, hv⟩
      · intro k
        rw [hdata, mem_dkeys_dset]
        by_cases hk : k = name
        · simp [hk, hdecl]
        · simp [hk]
      · intro hn
        rw [hdata]
        exact nodup_dkeys_dset r2.data name v hn
      · intro k w hw hwn
        rw [hdata]
        have hk : k ≠ name := by
          intro he
          rw [he] at hw
          rcases hslot with hc | hc
          · rw [hw] at hc; cases hc
          · rw [hw] at hc; exact hwn (Option.some.inj hc)
        rw [dget_dset_ne r2.data name k v hk]
        exact hw
  · rw [if_neg hg] at h
    cases h
    have hw0 : ∃ w0, dget r2.data name = some w0 ∧ w0 ≠ .vNone := by
      rcases hd : dget r2.data name with _ | w0
      · rw [hd] at hg; simp at hg
      · refine ⟨w0, rfl, ?_⟩
        intro he
        rw [hd, he] at hg
        simp at hg
    refine ⟨rfl, fun k _ => rfl, fun _ => hw0, ?_, fun hn => hn,
      fun k w hw _ => hw⟩
    intro k
    constructor
    · exact Or.inl
    · rintro (hm | ⟨hk, _⟩)
      · exact hm
      · rcases hw0 with ⟨w0, hd, _⟩
        rw [hk]
        exact mem_of_dget_eq_some r2.data name w0 hd

/-- Structural facts extracted from a successful `Filing.__init__`: the
final data validates, its keys are pairwise-distinct declared fields, every
declared default key is present, immutable fields with a non-None default
still hold it, and declared `created_at` / `id` slots are filled non-None. -/
theorem mkFiling_ok_spec (cls : FilingClass) (kwargs : Dict) (now : String)
    (r : Inst)
    (hdnd : (dkeys cls.defaults).Nodup)
    (hknd : (dkeys kwargs).Nodup)
    (hok : mkFiling cls kwargs now = .ok r) :
    r.cls = cls ∧
    validate_fields cls r.data = .ok () ∧
    (dkeys r.data).Nodup ∧
    (∀ k, k ∈ dkeys r.data → (fieldOf cls k).isSome = true) ∧
    (∀ k, k ∈ dkeys cls.defaults → (fieldOf cls k).isSome = true →
      k ∈ dkeys r.data) ∧
    (∀ k dv f, dget cls.defaults k = some dv → dv ≠ .vNone →
      fieldOf cls k = some f → f.immutable = true → dget r.data k = some dv) ∧
    ((fieldOf cls "created_at").isSome = true →
      ∃ w, dget r.data "created_at" = some w ∧ w ≠ .vNone) ∧
    ((fieldOf cls "id").isSome = true →
      ∃ w, dget r.data "id" = some w ∧ w ≠ .vNone) := by
  unfold mkFiling at hok
  cases hp1 : applySets ⟨cls, []⟩ cls.defaults with
  | error e => rw [hp1] at hok; exact Except.noConfusion hok
  | ok r1 =>
    rw [hp1] at hok
    dsimp only at hok
    obtain ⟨hc1, pt1, keys1, nodup1⟩ :=
      applySets_ok_inv cls [] cls.defaults r1 hdnd hp1
    cases hp2 : applySets r1 kwargs with
    | error e => rw [hp2] at hok; exact Except.noConfusion hok
    | ok r2 =>
      rw [hp2] at hok
      dsimp only at hok
      have hr1 : (⟨cls, r1.data⟩ : Inst) = r1 := by rw [← hc1]
      have hp2' : applySets ⟨cls, r1.data⟩ kwargs = .ok r2 := by
        rw [hr1]; exact hp2
      obtain ⟨hc2, pt2, keys2, nodup2⟩ :=
        applySets_ok_inv cls r1.data kwargs r2 hknd hp2'
      have hsafe2 := applySets_ok_safe cls r1.data kwargs r2 hknd hp2'
      cases hp3 : (if (dget r2.data "created_at").getD .vNone == .vNone
          then setAttr r2 "created_at" (.vDatetime now) else .ok r2) with
      | error e => rw [hp3] at hok; exact Except.noConfusion hok
      | ok r3 =>
        rw [hp3] at hok
        dsimp only at hok
        obtain ⟨hc3, pt3, hca3, keys3, nodup3, pres3⟩ :=
          fillStep_spec r2 "created_at" (.vDatetime now) r3 (by simp) hp3
        cases hp4 : (if (dget r3.data "id").getD .vNone == .vNone
            then setAttr r3 "id" (.vStr (generate_filing_id cls r3.data))
            else .ok r3) with
        | error e => rw [hp4] at hok; exact Except.noConfusion hok
        | ok r4 =>
          rw [hp4] at hok
          dsimp only at hok
          obtain ⟨hc4, pt4, hid4, keys4, nodup4, pres4⟩ :=
            fillStep_spec r3 "id" (.vStr (generate_filing_id cls r3.data)) r4
              (by simp) hp4
          cases hval : validate_fields cls r4.data with
          | error e => rw [hval] at hok; exact Except.noConfusion hok
          | ok u =>
            rw [hval] at hok
            dsimp only at hok
            have hr : r = r4 := (Except.ok.inj hok).symm
            subst hr
            cases u
            rw [hc2] at hca3 keys3
            rw [hc3, hc2] at hid4 keys4
            have hcls : r.cls = cls := by rw [hc4, hc3, hc2]
            have nd1 : (dkeys r1.data).Nodup := nodup1 (by simp [dkeys])
            have nd2 : (dkeys r2.data).Nodup := nodup2 nd1
            have nd3 : (dkeys r3.data).Nodup := nodup3 nd2
            have nd4 : (dkeys r.data).Nodup := nodup4 nd3
            refine ⟨hcls, hval, nd4, ?_, ?_, ?_, ?_, hid4⟩
            · intro k hk
              rcases (keys4 k).mp hk with hk3 | ⟨hke, hd⟩
              · rcases (keys3 k).mp hk3 with hk2 | ⟨hke, hd⟩
                · rcases (keys2 k).mp hk2 with hk1 | ⟨_, hd⟩
                  · rcases (keys1 k).mp hk1 with hk0 | ⟨_, hd⟩
                    · simp [dkeys] at hk0
                    · exact hd
                  · exact hd
                · exact hke ▸ hd
              · exact hke ▸ hd
            · intro k hkd hdecl
              have hk1 : k ∈ dkeys r1.data := (keys1 k).mpr (Or.inr ⟨hkd, hdecl⟩)
              have hk2 : k ∈ dkeys r2.data := (keys2 k).mpr (Or.inl hk1)
              have hk3 : k ∈ dkeys r3.data := (keys3 k).mpr (Or.inl hk2)
              exact (keys4 k).mpr (Or.inl hk3)
            · intro k dv f hdv hdvn hfk himm
              have h1 : dget r1.data k = some dv := by
                rw [pt1 k, hdv, hfk]
              have h2 : dget r2.data k = some dv := by
                rw [pt2 k]
                cases hkw : dget kwargs k with
                | none => rw [hfk]; exact h1
                | some v =>
                  rw [hfk]
                  rcases hsafe2 k v f dv (mem_of_dget kwargs k v hkw) hfk himm h1
                    with hc | hc
                  · exact absurd hc hdvn
                  · rw [← hc]
              have h3 : dget r3.data k = some dv := pres3 k dv h2 hdvn
              exact pres4 k dv h3 hdvn
            · intro hdecl
              obtain ⟨w, hw, hwn⟩ := hca3 hdecl
              refine ⟨w, ?_, hwn⟩
              rw [pt4 "created_at" (by decide)]
              exact hw

/-! Validation lemmas. -/

theorem vstep_grows (data : Dict) (acc : List String × List String)
    (p : String × FieldMeta) :
    ∃ e1 e2, vstep data acc p = (acc.1 ++ e1, acc.2 ++ e2) ∧
      (fieldOk data p = true ∨ e1 ≠ [] ∨ e2 ≠ []) := by
  by_cases h1 : (p.2.required && ((dget data p.1).getD .vNone) == .vNone) = true
  · refine ⟨[p.1], [], ?_, Or.inr (Or.inl (by simp))⟩
    unfold vstep
    rw [if_pos h1]
    simp
  · by_cases h2 : (core_fields.contains p.1 &&
        ((dget data p.1).getD .vNone) == .vStr "") = true
    · refine ⟨[], [p.1], ?_, Or.inr (Or.inr (by simp))⟩
      unfold vstep
      rw [if_neg h1, if_pos h2]
      simp
    · cases hft : p.2.ftype with
      | none =>
        refine ⟨[], [], ?_, Or.inl ?_⟩
        · unfold vstep
          rw [if_neg h1, if_neg h2]
          rw [hft]
          simp
        · unfold fieldOk
          rw [if_neg h1, if_neg h2]
          rw [hft]
      | some t =>
        by_cases h3 : (!p.2.required && ((dget data p.1).getD .vNone) == .vNone) = true
        · refine ⟨[], [], ?_, Or.inl ?_⟩
          · unfold vstep
            rw [if_neg h1, if_neg h2]
            rw [hft]
            dsimp only
            rw [if_pos h3]
            simp
          · unfold fieldOk
            rw [if_neg h1, if_neg h2]
            rw [hft]
            dsimp only
            rw [if_pos h3]
        · by_cases h4 : typeMatches t ((dget data p.1).getD .vNone) = true
          · refine ⟨[], [], ?_, Or.inl ?_⟩
            · unfold vstep
              rw [if_neg h1, if_neg h2]
              rw [hft]
              dsimp only
              rw [if_neg h3, if_pos h4]
              simp
            · unfold fieldOk
              rw [if_neg h1, if_neg h2]
              rw [hft]
              dsimp only
              rw [if_neg h3]
              exact h4
          · refine ⟨[], [p.1], ?_, Or.inr (Or.inr (by simp))⟩
            unfold vstep
            rw [if_neg h1, if_neg h2]
            rw [hft]
            dsimp only
            rw [if_neg h3, if_neg h4]
            simp

theorem validate_fold_spec (data : Dict) (fields : List (String × FieldMeta))
    (acc : List String × List String) :
    ∃ e1 e2, fields.foldl (vstep data) acc = (acc.1 ++ e1, acc.2 ++ e2) ∧
      (e1 = [] → e2 = [] → ∀ p ∈ fields, fieldOk data p = true) := by
  induction fields generalizing acc with
  | nil =>
    refine ⟨[], [], by simp, ?_⟩
    intro _ _ p hp
    cases hp
  | cons p ps ih =>
    obtain ⟨d1, d2, hstep, hcond⟩ := vstep_grows data acc p
    obtain ⟨f1, f2, hfold, hrest⟩ := ih (vstep data acc p)
    refine ⟨d1 ++ f1, d2 ++ f2, ?_, ?_⟩
    · rw [List.foldl_cons, hfold, hstep]
      simp
    · intro he1 he2 q hq
      have hd1 : d1 = [] ∧ f1 = [] := List.append_eq_nil.mp he1
      have hd2 : d2 = [] ∧ f2 = [] := List.append_eq_nil.mp he2
      rcases List.mem_cons.mp hq with he | hm
      · subst he
        rcases hcond with hc | hc | hc
        · exact hc
        · exact absurd hd1.1 hc
        · exact absurd hd2.1 hc
      · exact hrest hd1.2 hd2.2 q hm

theorem validate_ok_fieldOk (cls : FilingClass) (data : Dict)
    (h : validate_fields cls data = .ok ()) :
    ∀ p ∈ cls.fields, fieldOk data p = true := by
  obtain ⟨e1, e2, heq, himp⟩ := validate_fold_spec data cls.fields ([], [])
  unfold validate_fields at h
  rw [heq] at h
  simp only [List.nil_append] at h
  have h1 : e1.isEmpty = true := by
    by_contra hc
    have : (!e1.isEmpty) = true := by
      revert hc; cases e1.isEmpty <;> simp
    rw [if_pos this] at h
    exact Except.noConfusion h
  have h2 : e2.isEmpty = true := by
    by_contra hc
    have hn : (!e2.isEmpty) = true := by
      revert hc; cases e2.isEmpty <;> simp
    rw [if_neg (by simp [h1]), if_pos hn] at h
    exact Except.noConfusion h
  exact himp (by simpa using h1) (by simpa using h2)

theorem vstep_congr (a b : Dict) (acc : List String × List String)
    (p : String × FieldMeta) (h : dget a p.1 = dget b p.1) :
    vstep a acc p = vstep b acc p := by
  unfold vstep
  rw [h]

theorem validate_fields_congr (cls : FilingClass) (a b : Dict)
    (h : ∀ k, dget a k = dget b k) :
    validate_fields cls a = validate_fields cls b := by
  have hf : ∀ (l : List (String × FieldMeta)) (acc : List String × List String),
      l.foldl (vstep a) acc = l.foldl (vstep b) acc := by
    intro l
    induction l with
    | nil => intro acc; rfl
    | cons p ps ih =>
      intro acc
      rw [List.foldl_cons, List.foldl_cons, vstep_congr a b acc p (h p.1), ih]
  unfold validate_fields
  rw [hf]

/-- A validated field of a declared type holding a non-None value holds a
value of that type. -/
theorem fieldOk_type (data : Dict) (p : String × FieldMeta)
    (hok : fieldOk data p = true) (t : FType) (hft : p.2.ftype = some t)
    (v : Value) (hv : dget data p.1 = some v) (hvn : v ≠ .vNone) :
    typeMatches t v = true := by
  unfold fieldOk at hok
  rw [hv] at hok
  have hbeq : ((some v).getD Value.vNone == Value.vNone) = false :=
    beq_eq_false_iff_ne.mpr hvn
  rw [if_neg (by simp [hvn])] at hok
  by_cases h2 : (core_fields.contains p.1 &&
      ((some v).getD Value.vNone == Value.vStr "")) = true
  · rw [if_pos h2] at hok
    exact Bool.noConfusion hok
  · rw [if_neg h2] at hok
    rw [hft] at hok
    dsimp only at hok
    rw [if_neg (by simp [hvn])] at hok
    exact hok

/-! Serialization lemmas. -/

theorem to_dict_dget (d : Dict) (k : String) :
    dget (to_dict d) k =
      match dget d k with
      | some (.vDatetime iso) => some (.vStr iso)
      | o => o := by
  induction d with
  | nil => simp [to_dict, dget]
  | cons p rest ih =>
    rcases p with ⟨k0, v0⟩
    by_cases hk : (k0 == k) = true
    · cases v0 <;> simp [to_dict, dget_cons, hk]
    · cases v0 <;> simp [to_dict, dget_cons, hk] <;> exact ih

theorem dkeys_to_dict (d : Dict) : dkeys (to_dict d) = dkeys d := by
  induction d with
  | nil => rfl
  | cons p rest ih =>
    rcases p with ⟨k0, v0⟩
    cases v0 <;> simp only [to_dict, dkeys, List.map_cons] at ih ⊢ <;>
      rw [ih]

theorem dtstep_dget_ne (acc : Dict) (p : String × FieldMeta) (k : String)
    (hk : p.1 ≠ k) : dget (dtstep acc p) k = dget acc k := by
  unfold dtstep
  by_cases h : (p.2.ftype == some FType.tDatetime) = true
  · rw [if_pos h]
    cases hd : dget acc p.1 with
    | none => rfl
    | some v =>
      cases v with
      | vStr s => exact dget_dset_ne acc p.1 k _ (fun he => hk he.symm)
      | vNone => rfl
      | vBool b => rfl
      | vInt n => rfl
      | vDatetime iso => rfl
  · rw [if_neg h]

theorem dtstep_dget_self (acc : Dict) (p : String × FieldMeta) :
    dget (dtstep acc p) p.1 =
      if p.2.ftype == some FType.tDatetime then
        match dget acc p.1 with
        | some (.vStr s) => some (.vDatetime s)
        | o => o
      else dget acc p.1 := by
  unfold dtstep
  by_cases h : (p.2.ftype == some FType.tDatetime) = true
  · rw [if_pos h, if_pos h]
    cases hd : dget acc p.1 with
    | none => exact hd
    | some v =>
      cases v with
      | vStr s => exact dget_dset_self acc p.1 _
      | vNone => exact hd
      | vBool b => exact hd
      | vInt n => exact hd
      | vDatetime iso => exact hd
  · rw [if_neg h, if_neg h]

theorem dkeys_dtstep (acc : Dict) (p : String × FieldMeta) :
    dkeys (dtstep acc p) = dkeys acc := by
  unfold dtstep
  by_cases h : (p.2.ftype == some FType.tDatetime) = true
  · rw [if_pos h]
    cases hd : dget acc p.1 with
    | none => rfl
    | some v =>
      cases v with
      | vStr s =>
        rw [dkeys_dset, if_pos (mem_of_dget_eq_some acc p.1 _ hd)]
      | vNone => rfl
      | vBool b => rfl
      | vInt n => rfl
      | vDatetime iso => rfl
  · rw [if_neg h]

theorem dkeys_convFold (fields : List (String × FieldMeta)) (d : Dict) :
    dkeys (fields.foldl dtstep d) = dkeys d := by
  induction fields generalizing d with
  | nil => rfl
  | cons p ps ih =>
    rw [List.foldl_cons, ih, dkeys_dtstep]

theorem convFold_dget (fields : List (String × FieldMeta)) (d : Dict)
    (k : String) (hnd : (fields.map (·.1)).Nodup) :
    dget (fields.foldl dtstep d) k =
      match fields.find? (fun p => p.1 == k) with
      | some p =>
        if p.2.ftype == some FType.tDatetime then
          match dget d k with
          | some (.vStr s) => some (.vDatetime s)
          | o => o
        else dget d k
      | none => dget d k := by
  induction fields generalizing d with
  | nil => simp [List.find?]
  | cons p ps ih =>
    have hnodup := List.nodup_cons.mp hnd
    rw [List.foldl_cons]
    by_cases hk : (p.1 == k) = true
    · have hpk : p.1 = k := beq_iff_eq.mp hk
      have hfind : ps.find? (fun q => q.1 == k) = none := by
        rw [List.find?_eq_none]
        intro q hq hqk
        apply hnodup.1
        have hqk' : q.1 = k := beq_iff_eq.mp hqk
        show p.1 ∈ List.map (fun x => x.1) ps
        rw [hpk, ← hqk']
        exact List.mem_map.mpr ⟨q, hq, rfl⟩
      rw [ih (dtstep d p) hnodup.2, hfind]
      simp only [List.find?, hk]
      have := dtstep_dget_self d p
      rw [hpk] at this
      rw [this]
    · have hpk : p.1 ≠ k := fun he => by simp [he] at hk
      have hstep := dtstep_dget_ne d p k hpk
      rw [ih (dtstep d p) hnodup.2, hstep]
      simp only [List.find?, hk]

/-! Claim C5: the serialization round trip. -/

/-- The structural facts the `FilingMeta` metaclass guarantees for every
registered type: every declared field carries an injected value type,
`_fields` and `_defaults` are Python dicts (pairwise-distinct keys), and
every default belongs to a declared field. -/
def WfClass (cls : FilingClass) : Prop :=
  (∀ p ∈ cls.fields, (p.2.ftype).isSome = true) ∧
  (cls.fields.map (·.1)).Nodup ∧
  (dkeys cls.defaults).Nodup ∧
  (∀ p ∈ cls.defaults, (fieldOf cls p.1).isSome = true)

/-- C5: every record of a well-formed type produced by a successful
construction survives the round trip: rebuilding from its flat
serialization (`from_dict` of `to_dict`, under any reconstruction clock)
succeeds and yields an instance equal to the original under
`Filing.__eq__` — same concrete type and equal flat field maps — with
datetime text converted back on the way in. -/
theorem C5_roundtrip (cls : FilingClass) (kwargs : Dict) (now now' : String)
    (r : Inst) (hwf : WfClass cls) (hknd : (dkeys kwargs).Nodup)
    (hok : mkFiling cls kwargs now = .ok r) :
    ∃ r', from_dict cls (to_dict r.data) now' = .ok r' ∧ filingEq r r' = true := by
  obtain ⟨wfT, wfF, wfD, wfDD⟩ := hwf
  obtain ⟨hcls, hval, hnd, hdecl, hdefmem, hinv1, hca, hid⟩ :=
    mkFiling_ok_spec cls kwargs now r wfD hknd hok
  have hfok := validate_ok_fieldOk cls r.data hval
  have hkw : ∀ k, dget (cls.fields.foldl dtstep (to_dict r.data)) k =
      dget r.data k := by
    intro k
    rw [convFold_dget cls.fields (to_dict r.data) k wfF]
    cases hfind : cls.fields.find? (fun p => p.1 == k) with
    | none =>
      rw [to_dict_dget]
      cases hdk : dget r.data k with
      | none => rfl
      | some v =>
        cases v with
        | vDatetime iso =>
          exfalso
          have hmem : k ∈ dkeys r.data := mem_of_dget_eq_some r.data k _ hdk
          have hds := hdecl k hmem
          unfold fieldOf at hds
          rw [hfind] at hds
          simp at hds
        | vNone => rfl
        | vStr s => rfl
        | vBool b => rfl
        | vInt n => rfl
    | some p =>
      have hpk : (p.1 == k) = true := by
        have h' := List.find?_some hfind
        exact h'
      have hpk' : p.1 = k := beq_iff_eq.mp hpk
      have hpm : p ∈ cls.fields := List.mem_of_find?_eq_some hfind
      dsimp only
      by_cases hdt : (p.2.ftype == some FType.tDatetime) = true
      · rw [if_pos hdt, to_dict_dget]
        cases hdk : dget r.data k with
        | none => rfl
        | some v =>
          cases v with
          | vDatetime iso => rfl
          | vNone => rfl
          | vStr s =>
            exfalso
            have htm := fieldOk_type r.data p (hfok p hpm) FType.tDatetime
              (beq_iff_eq.mp hdt) (.vStr s) (by rw [hpk']; exact hdk) (by simp)
            simp [typeMatches] at htm
          | vBool b =>
            exfalso
            have htm := fieldOk_type r.data p (hfok p hpm) FType.tDatetime
              (beq_iff_eq.mp hdt) (.vBool b) (by rw [hpk']; exact hdk) (by simp)
            simp [typeMatches] at htm
          | vInt n =>
            exfalso
            have htm := fieldOk_type r.data p (hfok p hpm) FType.tDatetime
              (beq_iff_eq.mp hdt) (.vInt n) (by rw [hpk']; exact hdk) (by simp)
            simp [typeMatches] at htm
      · rw [if_neg hdt, to_dict_dget]
        obtain ⟨t, ht⟩ := Option.isSome_iff_exists.mp (wfT p hpm)
        cases hdk : dget r.data k with
        | none => rfl
        | some v =>
          cases v with
          | vDatetime iso =>
            exfalso
            have htm := fieldOk_type r.data p (hfok p hpm) t ht (.vDatetime iso)
              (by rw [hpk']; exact hdk) (by simp)
            cases t with
            | tDatetime => exact hdt (by rw [ht]; exact beq_self_eq_true _)
            | tStr => simp [typeMatches] at htm
            | tBool => simp [typeMatches] at htm
            | tInt => simp [typeMatches] at htm
          | vNone => rfl
          | vStr s => rfl
          | vBool b => rfl
          | vInt n => rfl
  have hkeyseq : dkeys (cls.fields.foldl dtstep (to_dict r.data)) =
      dkeys r.data := by
    rw [dkeys_convFold, dkeys_to_dict]
  have hkwnd : (dkeys (cls.fields.foldl dtstep (to_dict r.data))).Nodup := by
    rw [hkeyseq]; exact hnd
  obtain ⟨d1, happ1, pt1, keys1, nodup1⟩ :=
    applySets_ok cls [] cls.defaults wfD (by
      intro k v f cur hm hf himm hcur
      simp [dget] at hcur)
  obtain ⟨d2, happ2, pt2, keys2, nodup2⟩ :=
    applySets_ok cls d1 (cls.fields.foldl dtstep (to_dict r.data)) hkwnd (by
      intro k v f cur hm hf himm hcur
      have h1 := pt1 k
      rw [hcur] at h1
      cases hdv : dget cls.defaults k with
      | none =>
        rw [hdv] at h1
        have h1' : some cur = none := h1
        exact Option.noConfusion h1'
      | some dv =>
        rw [hdv, hf] at h1
        have h1' : some cur = some dv := h1
        have hcd : cur = dv := Option.some.inj h1'
        by_cases hdvn : dv = .vNone
        · left; rw [hcd, hdvn]
        · right
          have hrd : dget r.data k = some dv := hinv1 k dv f hdv hdvn hf himm
          have hkv : dget (cls.fields.foldl dtstep (to_dict r.data)) k = some v :=
            dget_of_mem_nodup _ k v hkwnd hm
          rw [hkw k, hrd] at hkv
          rw [hcd, Option.some.inj hkv])
  have hpt : ∀ k, dget d2 k = dget r.data k := by
    intro k
    rw [pt2 k]
    cases hkwk : dget (cls.fields.foldl dtstep (to_dict r.data)) k with
    | some v =>
      have hrdk : dget r.data k = some v := by rw [← hkw k]; exact hkwk
      have hmem : k ∈ dkeys r.data := mem_of_dget_eq_some _ k v hrdk
      obtain ⟨f, hf⟩ := Option.isSome_iff_exists.mp (hdecl k hmem)
      rw [hf, hrdk]
    | none =>
      have hrd : dget r.data k = none := by rw [← hkw k]; exact hkwk
      rw [hrd]
      show dget d1 k = none
      rw [pt1 k]
      cases hdv : dget cls.defaults k with
      | none => rfl
      | some dv =>
        cases hfo : fieldOf cls k with
        | none => rfl
        | some f =>
          exfalso
          have hkd : k ∈ dkeys cls.defaults := mem_of_dget_eq_some _ k dv hdv
          have hmem := hdefmem k hkd (by rw [hfo]; rfl)
          have hs := (dget_isSome_iff_mem r.data k).mpr hmem
          rw [hrd] at hs
          exact Bool.noConfusion hs
  have hnd2 : (dkeys d2).Nodup := nodup2 (nodup1 (by simp [dkeys]))
  have hph3 : (if (dget d2 "created_at").getD .vNone == .vNone
      then setAttr ⟨cls, d2⟩ "created_at" (.vDatetime now') else .ok ⟨cls, d2⟩) =
      .ok (⟨cls, d2⟩ : Inst) := by
    cases hfo : fieldOf cls "created_at" with
    | none =>
      by_cases hg : ((dget d2 "created_at").getD .vNone == .vNone) = true
      · rw [if_pos hg]
        exact setAttr_undeclared ⟨cls, d2⟩ "created_at" _ hfo
      · rw [if_neg hg]
    | some f =>
      obtain ⟨w, hw, hwn⟩ := hca (by rw [hfo]; rfl)
      rw [if_neg ?_]
      intro hg
      rw [hpt "created_at", hw] at hg
      exact hwn (beq_iff_eq.mp hg)
  have hph4 : (if (dget d2 "id").getD .vNone == .vNone
      then setAttr ⟨cls, d2⟩ "id" (.vStr (generate_filing_id cls d2))
      else .ok ⟨cls, d2⟩) = .ok (⟨cls, d2⟩ : Inst) := by
    cases hfo : fieldOf cls "id" with
    | none =>
      by_cases hg : ((dget d2 "id").getD .vNone == .vNone) = true
      · rw [if_pos hg]
        exact setAttr_undeclared ⟨cls, d2⟩ "id" _ hfo
      · rw [if_neg hg]
    | some f =>
      obtain ⟨w, hw, hwn⟩ := hid (by rw [hfo]; rfl)
      rw [if_neg ?_]
      intro hg
      rw [hpt "id", hw] at hg
      exact hwn (beq_iff_eq.mp hg)
  refine ⟨⟨cls, d2⟩, ?_, ?_⟩
  · unfold from_dict mkFiling
    rw [happ1]
    dsimp only
    rw [happ2]
    dsimp only
    rw [hph3]
    dsimp only
    rw [hph4]
    dsimp only
    rw [validate_fields_congr cls d2 r.data hpt, hval]
  · unfold filingEq
    rw [hcls, if_pos rfl]
    unfold dictEqv dictSub
    rw [Bool.and_eq_true]
    constructor
    · rw [List.all_eq_true]
      intro p hp
      have hg : dget r.data p.1 = some p.2 :=
        dget_of_mem_nodup r.data p.1 p.2 hnd hp
      show (dget d2 p.1 == some p.2) = true
      rw [hpt p.1, hg]
      exact beq_self_eq_true _
    · rw [List.all_eq_true]
      intro p hp
      have hg : dget d2 p.1 = some p.2 :=
        dget_of_mem_nodup d2 p.1 p.2 hnd2 hp
      show (dget r.data p.1 == some p.2) = true
      rw [← hpt p.1, hg]
      exact beq_self_eq_true _

/-- A user subtype adding a non-indexed datetime field and an indexed
string field, as the metaclass assembles it. -/
def DtCls : FilingClass :=
  ⟨"test.DtFiling",
   coreFieldMetas ++
     [("period_start", ⟨"period_start", some .tDatetime, false, false, false, none⟩),
      ("ticker", ⟨"ticker", some .tStr, true, false, false, none⟩)],
   []⟩

/-- Construction kwargs of the subtype record. -/
def dtKwargs : Dict :=
  baseKwargs ++ [("period_start", .vDatetime "2024-02-01T09:30:00"),
                 ("ticker", .vStr "TYO")]

/-- The subtype record those kwargs build. -/
def dtRec : Inst :=
  match mkFiling DtCls dtKwargs now0 with
  | .ok r => r
  | .error _ => ⟨DtCls, []⟩

/-- The base record `baseKwargs` builds. -/
def baseRec : Inst :=
  match mkFiling FilingCls baseKwargs now0 with
  | .ok r => r
  | .error _ => ⟨FilingCls, []⟩

/-- Witness for C5 at concrete inputs: a subtype record carrying an extra
datetime field and a base record both survive the round trip under a
different reconstruction clock. -/
theorem C5_roundtrip_witness :
    mkFiling DtCls dtKwargs now0 = .ok dtRec ∧
    (∃ r', from_dict DtCls (to_dict dtRec.data) "2025-01-01T00:00:00" = .ok r' ∧
      filingEq dtRec r' = true) ∧
    mkFiling FilingCls baseKwargs now0 = .ok baseRec ∧
    (∃ r', from_dict FilingCls (to_dict baseRec.data) "2025-01-01T00:00:00" = .ok r' ∧
      filingEq baseRec r' = true) := by
  refine ⟨by decide, ?_, by decide, ?_⟩
  · exact C5_roundtrip DtCls dtKwargs now0 "2025-01-01T00:00:00" dtRec
      ⟨by decide, by decide, by decide, by decide⟩ (by decide) (by decide)
  · exact C5_roundtrip FilingCls baseKwargs now0 "2025-01-01T00:00:00" baseRec
      ⟨by decide, by decide, by decide, by decide⟩ (by decide) (by decide)

end FinoFiling
